import Mathlib

/-!
# kardianos/schedule: the task scheduler of `main.go`

A shallow embedding of `main.go`.  Tasks are `*ConfigLine` values in the Go
program, so the embedding keeps a heap of `ConfigLine` objects addressed by
pointers; the variables `schConfig`, `sch` and `errorJobs` are fields of the
program state.  Calls that leave the program (the logger, the trigger engine,
`http.Get`, `exec.Command`) are recorded in a trace, and what the outside
answers is a parameter (`World`).

`Run` and the closure `onRunError` call each other: `Run` takes what the
callback does as an argument, `onRunError` takes what `ej.Run()` does, and
`RunFuel` ties the two with a bound on the nesting.  The trigger engine and
the configuration source are other repositories; they are modelled from the
interface the specification gives them.  The last part of the definitions is a
statement-level interleaving model of concurrent calls of `Run` on one task.
-/

namespace Schedule

/-! ## Data model -/

/-- `type UnknownDoErr struct { Do string }` (main.go 17-19). -/
structure UnknownDoErr where
  Do : String
  deriving DecidableEq, Repr

/-- `func (err *UnknownDoErr) Error() string` (main.go 21-23). -/
def UnknownDoErr.Error (err : UnknownDoErr) : String :=
  "unknown \"Do\": " ++ err.Do

/-- Values of Go's `error` interface that occur in the program. -/
inductive Error where
  /-- a value made by `errors.New` -/
  | new (text : String)
  /-- a value made by `fmt.Errorf` -/
  | errorf (text : String)
  /-- a `*UnknownDoErr` -/
  | unknownDo (err : UnknownDoErr)
  /-- an error handed back by a library (trigger engine, http, ioutil, exec, config) -/
  | external (text : String)
  deriving DecidableEq, Repr

/-- The `Error()` string of an error value. -/
def Error.message : Error → String
  | .new text => text
  | .errorf text => text
  | .unknownDo err => err.Error
  | .external text => text

/-- `var alreadyRunningError = errors.New("Task already running.")` (main.go 70). -/
def alreadyRunningError : Error := .new "Task already running."

/-- Function values that the program stores in `ConfigLine.runError`: the only
closure ever assigned is `onRunError` (main.go 160, 196). -/
inductive Callback where
  | onRunError
  deriving DecidableEq, Repr

/-- `type ConfigLine struct` (main.go 28-38).  `runError` is `none` for Go's nil
func value.  The embedded `sync.Mutex` is left out of the sequential model. -/
structure ConfigLine where
  At : String
  Do : String
  Args : List String
  runError : Option Callback
  isErrorJob : Bool
  running : Bool
  deriving DecidableEq, Repr

/-- A `*ConfigLine`. -/
abbrev Ptr := Nat

/-- `type AppConfig struct` (main.go 40-43); `Tasks` is a `[]*ConfigLine`. -/
structure AppConfig where
  UTC : Bool
  Tasks : List Ptr
  deriving DecidableEq, Repr

/-- `func (cl *ConfigLine) String() string` (main.go 115-117):
`fmt.Sprintf("%s @ %s <%v>", cl.Do, cl.At, cl.Args)`. -/
def ConfigLine.String (cl : ConfigLine) : String :=
  cl.Do ++ " @ " ++ cl.At ++ " <[" ++ " ".intercalate cl.Args ++ "]>"

/-- Modelled from the spec: the trigger engine (`github.com/kardianos/cron`,
not part of the repository) as the capability of section 6: a set of armed
entries, each a schedule expression bound to a job, started or stopped, with
a UTC flag. -/
structure Cron where
  UTC : Bool
  running : Bool
  entries : List (String × Ptr)
  deriving DecidableEq, Repr

/-- Modelled from the spec: `cron.New()`, a stopped engine with nothing armed. -/
def Cron.New : Cron := { UTC := false, running := false, entries := [] }

/-- Modelled from the spec: `Schedule.Start()`. -/
def Cron.Start (c : Cron) : Cron := { c with running := true }

/-- Modelled from the spec: `Schedule.Stop()`. -/
def Cron.Stop (c : Cron) : Cron := { c with running := false }

/-- Modelled from the spec: `Schedule.AddJob(expr, runnable) → error`; the
expression is parsed by the engine's `Parse` and, when that succeeds, the job
is armed under it. -/
def Cron.AddJob (parse : String → Option Error) (c : Cron) (spec : String) (job : Ptr) :
    Cron × Option Error :=
  match parse spec with
  | some err => (c, some err)
  | none => ({ c with entries := c.entries ++ [(spec, job)] }, none)

/-- Messages handed to the service logger. -/
inductive LogMsg where
  /-- main.go 161 -/
  | jobFailed (job : String) (err : Error)
  /-- main.go 178 -/
  | loadFailed (err : Error)
  /-- main.go 188 -/
  | badSchedule (at_ : String) (err : Error)
  /-- main.go 193 -/
  | badTask (err : Error)
  /-- main.go 218 -/
  | configLoaded
  deriving DecidableEq, Repr

/-- Calls that leave the program, in the order they are made. -/
inductive Event where
  | logWarning (msg : LogMsg)
  | logInfo (msg : LogMsg)
  | cronStop
  | cronNew
  | cronAddJob (spec : String) (job : Ptr)
  | cronStart
  | httpGet (url : String)
  | bodyClose
  | command (name : String) (args : List String)
  deriving DecidableEq, Repr

/-- The program state: the heap of `ConfigLine` objects (`next` is the first
unallocated address) and the variables `schConfig` (main.go 148), `sch`
(main.go 25) and `errorJobs` (main.go 159), with the trace of outside calls. -/
structure State where
  heap : Ptr → ConfigLine
  next : Ptr
  schConfig : AppConfig
  sch : Cron
  errorJobs : List Ptr
  trace : List Event

/-- An `*http.Response` as far as the program looks at it: what reading
`res.Body` to the end gives. -/
structure Response where
  Body : Except Error String

/-- The outside world the program calls into.  `Get` and `CombinedOutput` may
answer differently in different program states; `Parse` is the trigger
engine's parser, a function of the expression alone. -/
structure World where
  Get : State → String → Except Error Response
  CombinedOutput : State → String → List String → String × Option Error
  Parse : String → Option Error

/-- Ways a run of the program ends without returning. -/
inductive Abort where
  | panic (msg : String)
  | exit (code : Nat)
  | fuel
  deriving DecidableEq, Repr

/-- Write one object of the heap. -/
def State.store (s : State) (p : Ptr) (cl : ConfigLine) : State :=
  { s with heap := fun q => if q = p then cl else s.heap q }

/-- Append a call to the trace. -/
def State.emit (s : State) (e : Event) : State :=
  { s with trace := s.trace ++ [e] }

/-! ## `ConfigLine.Verify` -/

/-- `func (cl *ConfigLine) Verify() error` (main.go 45-60), in state-passing
style: the state after the call and the returned error (`none` for nil). -/
def Verify (s : State) (cl : Ptr) : State × Option Error :=
  if (s.heap cl).Do = "ping" then
    if (s.heap cl).Args.length ≠ 2 then
      (s, some (.new "\"ping\" command must have two arguments: Url, and expected result."))
    else (s, none)
  else if (s.heap cl).Do = "exec" then
    if (s.heap cl).Args.length = 0 then
      (s, some (.new "\"exec\" command must have at least one Args: CMD [ARGS]."))
    else (s, none)
  else
    (s, some (.unknownDo { Do := (s.heap cl).Do }))

/-! ## `ConfigLine.Running` and `ConfigLine.Run` -/

/-- `func (cl *ConfigLine) Running() bool` (main.go 62-68): the flag, read
under the task's lock. -/
def Running (s : State) (cl : Ptr) : Bool :=
  (s.heap cl).running

/-- The assignments `cl.running = true` (main.go 77-79) and `cl.running = false`
(main.go 81-83), each made under the task's lock. -/
def setRunning (s : State) (cl : Ptr) (b : Bool) : State :=
  s.store cl { s.heap cl with running := b }

/-- The call `cl.runError(cl, err)` (main.go 74, 89, 95, 100, 107).  `onErr` is
what the closure `onRunError` does when called; calling a nil func value
panics. -/
def callRunError (onErr : State → Ptr → Error → Except Abort State)
    (s : State) (cl : Ptr) (err : Error) : Except Abort State :=
  match (s.heap cl).runError with
  | none => .error (.panic "invalid memory address or nil pointer dereference")
  | some .onRunError => onErr s cl err

/-- The `switch cl.Do` of `Run` (main.go 85-112), entered with the running
flag held.  `defer res.Body.Close()` runs on every return after a response
was received. -/
def runSwitch (onErr : State → Ptr → Error → Except Abort State) (w : World)
    (s : State) (cl : Ptr) : Except Abort State :=
  if (s.heap cl).Do = "ping" then
    match (s.heap cl).Args with
    | [] => .error (.panic "index out of range")
    | url :: _ =>
      match w.Get s url with
      | .error err => callRunError onErr (s.emit (.httpGet url)) cl err
      | .ok res =>
        (match res.Body with
          | .error err => callRunError onErr (s.emit (.httpGet url)) cl err
          | .ok responseString =>
            match (s.heap cl).Args.tail with
            | [] => .error (.panic "index out of range")
            | expected :: _ =>
              if responseString ≠ expected then
                callRunError onErr (s.emit (.httpGet url)) cl
                  (.errorf ("Expected \"" ++ expected ++ "\", got: \"" ++
                    responseString ++ "\"."))
              else .ok (s.emit (.httpGet url))).map
          fun (s : State) => s.emit .bodyClose
  else if (s.heap cl).Do = "exec" then
    match (s.heap cl).Args with
    | [] => .error (.panic "index out of range")
    | name :: args =>
      match w.CombinedOutput s name args with
      | (output, some err) =>
        callRunError onErr (s.emit (.command name args)) cl
          (.errorf ("Failed to run command result. Error: " ++ err.message ++
            ", output: " ++ output))
      | (_, none) => .ok (s.emit (.command name args))
  else
    .error (.panic "unreachable")

/-- `func (cl *ConfigLine) Run()` (main.go 72-113).  The deferred release of
the running flag (main.go 80-84) runs on every return of the switch. -/
def Run (onErr : State → Ptr → Error → Except Abort State) (w : World)
    (s : State) (cl : Ptr) : Except Abort State :=
  if Running s cl then
    callRunError onErr s cl alreadyRunningError
  else
    (runSwitch onErr w (setRunning s cl true) cl).map
      fun (s : State) => setRunning s cl false

/-! ## The failure callback -/

/-- The closure `onRunError` (main.go 160-168).  It reads the variable
`errorJobs` when it is called; `run` is what `ej.Run()` does. -/
def onRunError (run : State → Ptr → Except Abort State)
    (s : State) (cl : Ptr) (err : Error) : Except Abort State :=
  let s := s.emit (.logWarning (.jobFailed (s.heap cl).String err))
  if (s.heap cl).isErrorJob then
    .ok s
  else
    s.errorJobs.foldlM run s

/-- `Run` with `runError` bound to `onRunError`, whose `ej.Run()` calls are
`Run` again; `fuel` bounds the nesting of calls. -/
def RunFuel : Nat → World → State → Ptr → Except Abort State
  | 0, _, _, _ => .error .fuel
  | fuel + 1, w, s, cl => Run (onRunError (RunFuel fuel w)) w s cl

/-! ## The reload loop -/

/-- One decoded entry of the configuration's `Tasks` array. -/
structure TaskRecord where
  At : String
  Do : String
  Args : List String
  deriving DecidableEq, Repr

/-- The decoded configuration document. -/
structure RawConfig where
  UTC : Bool
  Tasks : List TaskRecord
  deriving DecidableEq, Repr

/-- The `ConfigLine` a decoded record becomes: the unexported fields hold
their zero values. -/
def TaskRecord.fresh (r : TaskRecord) : ConfigLine :=
  { At := r.At, Do := r.Do, Args := r.Args,
    runError := none, isErrorJob := false, running := false }

/-- Modelled from the spec: `conf.Load(&schConfig)` of the configuration
source (`bitbucket.org/kardianos/service/config`, not part of the
repository).  Section 3: the candidate is constructed fresh on every reload
from the decoded document; a decode error is handed back.  The fresh tasks
take the addresses from `s.next` on, in the document's order. -/
def Load (s : State) (decoded : Except Error RawConfig) : State × Option Error :=
  match decoded with
  | .error err => (s, some err)
  | .ok raw =>
    ({ s with
        heap := fun p =>
          if s.next ≤ p then
            match raw.Tasks.get? (p - s.next) with
            | some r => r.fresh
            | none => s.heap p
          else s.heap p
        next := s.next + raw.Tasks.length
        schConfig := { UTC := raw.UTC, Tasks := List.range' s.next raw.Tasks.length } },
      none)

/-- The loop "Verify config before stopping" (main.go 183-197) over the tasks
still to visit.  The flag is `false` when the loop left through
`continue work`. -/
def verifyTasks (w : World) : State → List Ptr → State × Bool
  | s, [] => (s, true)
  | s, sc :: rest =>
    match Verify s sc with
    | (s, err) =>
      match (if (s.heap sc).At ≠ "@error" then w.Parse (s.heap sc).At else none) with
      | some perr => (s.emit (.logWarning (.badSchedule (s.heap sc).At perr)), false)
      | none =>
        match err with
        | some err => (s.emit (.logWarning (.badTask err)), false)
        | none =>
          verifyTasks w (s.store sc { s.heap sc with runError := some .onRunError }) rest

/-- The install loop (main.go 204-216) over the tasks still to visit. -/
def installTasks (w : World) : State → List Ptr → Except Abort State
  | s, [] => .ok s
  | s, sc :: rest =>
    if (s.heap sc).At = "@error" then
      let s := s.store sc { s.heap sc with isErrorJob := true }
      installTasks w { s with errorJobs := s.errorJobs ++ [sc] } rest
    else
      match s.sch.AddJob w.Parse (s.heap sc).At sc with
      | (sch, none) =>
        installTasks w ({ s with sch := sch }.emit (.cronAddJob (s.heap sc).At sc)) rest
      | (_, some _) =>
        .error (.exit 1)

/-- One turn of the `work` loop (main.go 175-219): the change notification has
arrived and `decoded` is what the configuration source decodes. -/
def reload (w : World) (s : State) (decoded : Except Error RawConfig) :
    Except Abort State :=
  match Load s decoded with
  | (s, some err) => .ok (s.emit (.logWarning (.loadFailed err)))
  | (s, none) =>
    match verifyTasks w s s.schConfig.Tasks with
    | (s, false) => .ok s
    | (s, true) =>
      let s := { s with sch := s.sch.Stop }.emit .cronStop
      let s := { s with sch := Cron.New }.emit .cronNew
      let s := { s with sch := { s.sch with UTC := true } }
      let s := { s with errorJobs := [] }
      match installTasks w s s.schConfig.Tasks with
      | .error a => .error a
      | .ok s =>
        .ok (({ s with sch := s.sch.Start }.emit .cronStart).emit (.logInfo .configLoaded))

/-- The state when the `work` loop is entered (main.go 147-171): an empty
`schConfig`, a fresh started scheduler, no error jobs. -/
def initState : State :=
  { heap := fun _ =>
      { At := "", Do := "", Args := [], runError := none, isErrorJob := false,
        running := false }
    next := 0
    schConfig := { UTC := false, Tasks := [] }
    sch := Cron.New.Start
    errorJobs := []
    trace := [.cronStart] }

/-- `var SampleConfig` (main.go 119-145), as the document it encodes. -/
def SampleConfig : RawConfig :=
  { UTC := false
    Tasks :=
      [ { At := "@error", Do := "ping", Args := ["http://hitthisurl.com/error", "OK"] },
        { At := "0 5 * * * *", Do := "ping", Args := ["http://hitthisurl.com/here", "OK"] },
        { At := "@every 1h30m", Do := "ping", Args := ["http://hitthisurl.com/here", "OK"] } ] }

/-! ## The outcome of an action, in the words of the specification -/

/-- Section 4.1 of the specification: a ping succeeds iff the GET to `Args[0]`
returns without transport error, the body is read in full and equals
`Args[1]`; an exec succeeds iff running `Args[0]` with `Args[1:]` returns no
error.  `s` is the program state in which the action of task `cl` starts. -/
def actionSucceeds (w : World) (s : State) (cl : Ptr) : Bool :=
  if (s.heap cl).Do = "ping" then
    match w.Get s ((s.heap cl).Args.getD 0 "") with
    | .error _ => false
    | .ok res =>
      match res.Body with
      | .error _ => false
      | .ok responseString => responseString == (s.heap cl).Args.getD 1 ""
  else
    match (w.CombinedOutput s ((s.heap cl).Args.getD 0 "") ((s.heap cl).Args.drop 1)).2 with
    | some _ => false
    | none => true

/-! ## Observers used to state the claims -/

/-- A failure callback that writes the warning of `onRunError` (main.go 161)
and does nothing else. -/
def logOnly (s : State) (cl : Ptr) (err : Error) : Except Abort State :=
  .ok (s.emit (.logWarning (.jobFailed (s.heap cl).String err)))

/-- An observer for the failure callback: it behaves as `onErr` when the
running flag of `cl` is held at the moment of the call and panics otherwise. -/
def heldOnly (cl : Ptr) (onErr : State → Ptr → Error → Except Abort State) :
    State → Ptr → Error → Except Abort State :=
  fun st q err =>
    if Running st cl then onErr st q err else .error (.panic "running flag not held")

/-- An observer for the action: the world answers as `w` when the running flag
of `cl` is held in the state in which the action starts, and with an error
otherwise. -/
def World.heldOnly (w : World) (cl : Ptr) : World :=
  { w with
    Get := fun st url =>
      if Running st cl then w.Get st url else .error (.external "running flag not held")
    CombinedOutput := fun st name args =>
      if Running st cl then w.CombinedOutput st name args
      else ("", some (.external "running flag not held")) }

/-! ## The loops of the reload in closed form -/

/-- The candidate that a change notification with document `raw` puts in
`schConfig`. -/
def candidate (s : State) (raw : RawConfig) : State :=
  (Load s (.ok raw)).1

/-- Every task of the list passes `Verify`, and every `At` other than the
error sentinel is accepted by the trigger engine's `Parse`. -/
def Valid (w : World) (s : State) (tasks : List Ptr) : Prop :=
  ∀ sc ∈ tasks, (Verify s sc).2 = none ∧
    ((s.heap sc).At ≠ "@error" → w.Parse (s.heap sc).At = none)

instance (w : World) (s : State) (tasks : List Ptr) : Decidable (Valid w s tasks) :=
  inferInstanceAs (Decidable (∀ sc ∈ tasks, (Verify s sc).2 = none ∧
    ((s.heap sc).At ≠ "@error" → w.Parse (s.heap sc).At = none)))

/-- The candidate of document `raw` passes the verify loop. -/
def Accepted (w : World) (s : State) (raw : RawConfig) : Prop :=
  Valid w (candidate s raw) (candidate s raw).schConfig.Tasks

instance (w : World) (s : State) (raw : RawConfig) : Decidable (Accepted w s raw) :=
  inferInstanceAs (Decidable (Valid w (candidate s raw) (candidate s raw).schConfig.Tasks))

/-- Some task of the candidate fails `Verify`, or has an `At` other than the
error sentinel that the trigger engine's `Parse` rejects. -/
def Rejected (w : World) (s : State) (raw : RawConfig) : Prop :=
  ∃ sc ∈ (candidate s raw).schConfig.Tasks,
    (Verify (candidate s raw) sc).2 ≠ none ∨
    (((candidate s raw).heap sc).At ≠ "@error" ∧
      w.Parse ((candidate s raw).heap sc).At ≠ none)

instance (w : World) (s : State) (raw : RawConfig) : Decidable (Rejected w s raw) :=
  inferInstanceAs (Decidable (∃ sc ∈ (candidate s raw).schConfig.Tasks,
    (Verify (candidate s raw) sc).2 ≠ none ∨
    (((candidate s raw).heap sc).At ≠ "@error" ∧
      w.Parse ((candidate s raw).heap sc).At ≠ none)))

/-- The heap after the verify loop has bound the callback of every task of
`tasks`. -/
def bindAll (s : State) (tasks : List Ptr) : State :=
  { s with
    heap := fun q =>
      if q ∈ tasks then { s.heap q with runError := some .onRunError } else s.heap q }

/-- The state after the install loop has visited every task of `tasks`: the
error tasks are flagged and appended to `errorJobs`, the others are armed in
the scheduler under their `At`. -/
def installed (s : State) (tasks : List Ptr) : State :=
  { s with
    heap := fun q =>
      if q ∈ tasks ∧ (s.heap q).At = "@error" then { s.heap q with isErrorJob := true }
      else s.heap q
    errorJobs := s.errorJobs ++ tasks.filter (fun sc => (s.heap sc).At = "@error")
    sch := { s.sch with
      entries := s.sch.entries ++
        (tasks.filter (fun sc => (s.heap sc).At ≠ "@error")).map
          (fun sc => ((s.heap sc).At, sc)) }
    trace := s.trace ++
      (tasks.filter (fun sc => (s.heap sc).At ≠ "@error")).map
        (fun sc => Event.cronAddJob (s.heap sc).At sc) }

/-- The scheduler swap and install (main.go 199-218) applied to a state `c`
that has passed the verify loop. -/
def swapped (c : State) : State :=
  let s := { c with sch := c.sch.Stop }.emit .cronStop
  let s := { s with sch := Cron.New }.emit .cronNew
  let s := { s with sch := { s.sch with UTC := true } }
  let s := { s with errorJobs := [] }
  let s := installed s s.schConfig.Tasks
  ({ s with sch := s.sch.Start }.emit .cronStart).emit (.logInfo .configLoaded)

/-- The exported fields of a task, as a record of the document. -/
def ConfigLine.record (cl : ConfigLine) : TaskRecord :=
  { At := cl.At, Do := cl.Do, Args := cl.Args }

/-- The error jobs are ready to be run by the failure callback: each is
flagged as error job, has its callback bound and passes `Verify`. -/
def Escalatable (s : State) : Prop :=
  ∀ q ∈ s.errorJobs, (s.heap q).isErrorJob = true ∧
    (s.heap q).runError = some .onRunError ∧ (Verify s q).2 = none

/-- State `t` has the error-task list of `s`, and every task object has in `t`
the kind, arguments, callback and error-job flag it has in `s`. -/
def SameTasks (s t : State) : Prop :=
  t.errorJobs = s.errorJobs ∧
  ∀ q, (t.heap q).isErrorJob = (s.heap q).isErrorJob ∧
    (t.heap q).runError = (s.heap q).runError ∧
    (t.heap q).Do = (s.heap q).Do ∧ (t.heap q).Args = (s.heap q).Args

/-- Every armed job and every error job is an allocated task object that
passes `Verify` and has its callback bound, and every error job is flagged. -/
def Ready (s : State) : Prop :=
  (∀ e ∈ s.sch.entries, e.2 < s.next ∧
    (s.heap e.2).runError = some .onRunError ∧ (Verify s e.2).2 = none) ∧
  (∀ q ∈ s.errorJobs, q < s.next ∧ (s.heap q).isErrorJob = true ∧
    (s.heap q).runError = some .onRunError ∧ (Verify s q).2 = none)

/-- The states the program reaches from the entry of the `work` loop by turns
of the loop and by runs of tasks that return, one after the other. -/
inductive Reachable (w : World) : State → Prop where
  | start : Reachable w initState
  | reload {s s2 : State} (decoded : Except Error RawConfig) :
      Reachable w s → reload w s decoded = .ok s2 → Reachable w s2
  | run {s s2 : State} (fuel : Nat) (cl : Ptr) :
      Reachable w s → RunFuel fuel w s cl = .ok s2 → Reachable w s2

/-- State `st` still has the installation of `s2`: the same error-task list,
and every task object allocated in `s2` has in `st` the kind, arguments,
callback and error-job flag it has in `s2`.  Running flags, the trace and
objects allocated later may differ. -/
def Keeps (s2 st : State) : Prop :=
  st.errorJobs = s2.errorJobs ∧ s2.next ≤ st.next ∧
  ∀ q, q < s2.next →
    (st.heap q).isErrorJob = (s2.heap q).isErrorJob ∧
    (st.heap q).runError = (s2.heap q).runError ∧
    (st.heap q).Do = (s2.heap q).Do ∧ (st.heap q).Args = (s2.heap q).Args

/-- The states the program is in after state `s2` and before the next
configuration is installed: it may have completed runs of tasks, be in the
middle of runs (a running flag set or released by `Run`, an outside call
made), and have gone through turns of the reload loop that installed nothing
(a decode error, a rejected candidate). -/
inductive Later (w : World) (s2 : State) : State → Prop where
  | now : Later w s2 s2
  | run {st st2 : State} (fuel : Nat) (cl : Ptr) :
      Later w s2 st → RunFuel fuel w st cl = .ok st2 → Later w s2 st2
  | flag {st : State} (cl : Ptr) (b : Bool) :
      Later w s2 st → Later w s2 (setRunning st cl b)
  | call {st : State} (e : Event) :
      Later w s2 st → Later w s2 (st.emit e)
  | noInstall {st st2 : State} (decoded : Except Error RawConfig) :
      Later w s2 st → (∀ raw, decoded = .ok raw → ¬ Accepted w st raw) →
      reload w st decoded = .ok st2 → Later w s2 st2

/-! ## Inputs of the examples -/

/-- A world for examples: `http://hitthisurl.com/here` answers "FAIL", every
other URL answers "OK", every command succeeds, and the trigger engine accepts
every expression but "bad". -/
def exampleWorld : World :=
  { Get := fun _ url =>
      if url = "http://hitthisurl.com/here" then .ok { Body := .ok "FAIL" }
      else .ok { Body := .ok "OK" }
    CombinedOutput := fun _ _ _ => ("", none)
    Parse := fun spec => if spec = "bad" then some (.external "bad schedule") else none }

/-- A first configuration: an error task that pings, and an ordinary ping. -/
def generationOne : RawConfig :=
  { UTC := false
    Tasks :=
      [ { At := "@error", Do := "ping", Args := ["http://hitthisurl.com/error", "OK"] },
        { At := "0 5 * * * *", Do := "ping", Args := ["http://hitthisurl.com/here", "OK"] } ] }

/-- A second configuration: an error task that runs a command, and an
ordinary ping. -/
def generationTwo : RawConfig :=
  { UTC := false
    Tasks :=
      [ { At := "@error", Do := "exec", Args := ["/bin/notify"] },
        { At := "@every 1h30m", Do := "ping", Args := ["http://hitthisurl.com/here", "OK"] } ] }

/-- A configuration with a valid task and a task of unknown kind. -/
def badConfig : RawConfig :=
  { UTC := false
    Tasks :=
      [ { At := "@every 1h30m", Do := "ping", Args := ["http://hitthisurl.com/here", "OK"] },
        { At := "0 5 * * * *", Do := "mail", Args := ["root"] } ] }

/-- A state in which object 0 carries the error-job flag and an `At` that is
not the error sentinel. -/
def flaggedState : State :=
  initState.store 0
    { At := "0 5 * * * *", Do := "ping", Args := ["http://hitthisurl.com/here", "OK"],
      runError := some .onRunError, isErrorJob := true, running := false }

/-- The state after `generationOne` was loaded into the initial state. -/
def stateOne : State :=
  swapped (bindAll (candidate initState generationOne)
    (candidate initState generationOne).schConfig.Tasks)

/-- The state after `generationTwo` was loaded on top of `stateOne`. -/
def stateTwo : State :=
  swapped (bindAll (candidate stateOne generationTwo)
    (candidate stateOne generationTwo).schConfig.Tasks)

/-- The state after `SampleConfig` was loaded into the initial state: task 0
is the error task, tasks 1 and 2 are armed. -/
def sampleState : State :=
  swapped (bindAll (candidate initState SampleConfig)
    (candidate initState SampleConfig).schConfig.Tasks)

/-! ## Concurrent calls of `Run` on one task

Goroutines that execute `cl.Run()` on the same task, interleaved statement by
statement.  They share the task's mutex and its `running` field. -/

/-- The statement of `Run` (or of `Running`, called from it) that a goroutine
executes next. -/
inductive Pc where
  /-- `cl.Lock()` in `Running` (main.go 63) -/
  | lockRead
  /-- `rtest := cl.running` (main.go 64) -/
  | readFlag
  /-- `cl.Unlock()` (main.go 65), `rtest` in hand -/
  | unlockRead (rtest : Bool)
  /-- `if cl.Running()` (main.go 73) -/
  | test (rtest : Bool)
  /-- `cl.runError(cl, alreadyRunningError); return` (main.go 74-75) -/
  | reportRunning
  /-- `cl.Lock()` (main.go 77) -/
  | lockSet
  /-- `cl.running = true` (main.go 78) -/
  | setFlag
  /-- `cl.Unlock()` (main.go 79) -/
  | unlockSet
  /-- the action of the switch is executing (main.go 85-112) -/
  | action
  /-- `cl.runError(cl, err); return` after a failed action -/
  | reportFailure
  /-- the deferred `cl.Lock()` (main.go 81) -/
  | lockClear
  /-- the deferred `cl.running = false` (main.go 82) -/
  | clearFlag
  /-- the deferred `cl.Unlock()` (main.go 83) -/
  | unlockClear
  /-- `Run` has returned -/
  | done
  deriving DecidableEq, Repr

/-- The task as the goroutines share it, with what they have done so far. -/
structure Shared where
  /-- the embedded `sync.Mutex` is held -/
  locked : Bool
  /-- `cl.running` -/
  running : Bool
  /-- the goroutines executing `cl.Run()` -/
  pcs : List Pc
  /-- goroutines whose `Run` called `runError` with `alreadyRunningError` -/
  reportedRunning : List Nat
  /-- goroutines whose `Run` called `runError` with the action's error -/
  reportedFailure : List Nat
  deriving DecidableEq, Repr

/-- `n` goroutines about to call `cl.Run()` on an idle task. -/
def Shared.init (n : Nat) : Shared :=
  { locked := false, running := false, pcs := List.replicate n .lockRead,
    reportedRunning := [], reportedFailure := [] }

/-- Goroutine `i` executes its next statement; `fails i` tells whether its
action ends in an error.  A goroutine at `cl.Lock()` while the mutex is held
does not move. -/
def Shared.step (fails : Nat → Bool) (st : Shared) (i : Nat) : Shared :=
  match st.pcs.get? i with
  | none => st
  | some .lockRead =>
    if st.locked then st else { st with locked := true, pcs := st.pcs.set i .readFlag }
  | some .readFlag => { st with pcs := st.pcs.set i (.unlockRead st.running) }
  | some (.unlockRead rtest) => { st with locked := false, pcs := st.pcs.set i (.test rtest) }
  | some (.test rtest) =>
    if rtest then { st with pcs := st.pcs.set i .reportRunning }
    else { st with pcs := st.pcs.set i .lockSet }
  | some .reportRunning =>
    { st with reportedRunning := st.reportedRunning ++ [i], pcs := st.pcs.set i .done }
  | some .lockSet =>
    if st.locked then st else { st with locked := true, pcs := st.pcs.set i .setFlag }
  | some .setFlag => { st with running := true, pcs := st.pcs.set i .unlockSet }
  | some .unlockSet => { st with locked := false, pcs := st.pcs.set i .action }
  | some .action =>
    if fails i then { st with pcs := st.pcs.set i .reportFailure }
    else { st with pcs := st.pcs.set i .lockClear }
  | some .reportFailure =>
    { st with reportedFailure := st.reportedFailure ++ [i], pcs := st.pcs.set i .lockClear }
  | some .lockClear =>
    if st.locked then st else { st with locked := true, pcs := st.pcs.set i .clearFlag }
  | some .clearFlag => { st with running := false, pcs := st.pcs.set i .unlockClear }
  | some .unlockClear => { st with locked := false, pcs := st.pcs.set i .done }
  | some .done => st

/-- The goroutines move in the order the schedule lists them. -/
def Shared.run (fails : Nat → Bool) (st : Shared) (schedule : List Nat) : Shared :=
  schedule.foldl (Shared.step fails) st

/-- The number of goroutines whose action is executing. -/
def Shared.inFlight (st : Shared) : Nat :=
  st.pcs.count .action

/-! ## Basic facts -/

@[simp]
theorem heap_emit (s : State) (e : Event) : (s.emit e).heap = s.heap := rfl

@[simp]
theorem errorJobs_emit (s : State) (e : Event) :
    (s.emit e).errorJobs = s.errorJobs := rfl

@[simp]
theorem sch_emit (s : State) (e : Event) : (s.emit e).sch = s.sch := rfl

@[simp]
theorem schConfig_emit (s : State) (e : Event) :
    (s.emit e).schConfig = s.schConfig := rfl

@[simp]
theorem next_emit (s : State) (e : Event) : (s.emit e).next = s.next := rfl

@[simp]
theorem trace_emit (s : State) (e : Event) :
    (s.emit e).trace = s.trace ++ [e] := rfl

@[simp]
theorem heap_store_self (s : State) (p : Ptr) (c : ConfigLine) :
    (s.store p c).heap p = c := by simp [State.store]

theorem heap_store_other (s : State) (p q : Ptr) (c : ConfigLine) (h : q ≠ p) :
    (s.store p c).heap q = s.heap q := by simp [State.store, h]

@[simp]
theorem errorJobs_store (s : State) (p : Ptr) (c : ConfigLine) :
    (s.store p c).errorJobs = s.errorJobs := rfl

@[simp]
theorem sch_store (s : State) (p : Ptr) (c : ConfigLine) :
    (s.store p c).sch = s.sch := rfl

@[simp]
theorem schConfig_store (s : State) (p : Ptr) (c : ConfigLine) :
    (s.store p c).schConfig = s.schConfig := rfl

@[simp]
theorem next_store (s : State) (p : Ptr) (c : ConfigLine) :
    (s.store p c).next = s.next := rfl

@[simp]
theorem trace_store (s : State) (p : Ptr) (c : ConfigLine) :
    (s.store p c).trace = s.trace := rfl

@[simp]
theorem running_setRunning_self (s : State) (cl : Ptr) (b : Bool) :
    ((setRunning s cl b).heap cl).running = b := by simp [setRunning]

theorem heap_setRunning_other (s : State) (cl q : Ptr) (b : Bool) (h : q ≠ cl) :
    (setRunning s cl b).heap q = s.heap q := by simp [setRunning, heap_store_other, h]

theorem map_eq_ok {f : State → State} {x : Except Abort State} {s2 : State} :
    x.map f = .ok s2 ↔ ∃ s1, x = .ok s1 ∧ s2 = f s1 := by
  cases x with
  | error a => simp [Except.map]
  | ok s1 =>
    simp only [Except.map, Except.ok.injEq, exists_eq_left']
    exact eq_comm

/-! ## Claims about `Verify` -/

theorem Verify_none_iff (s : State) (cl : Ptr) :
    (Verify s cl).2 = none ↔
      ((s.heap cl).Do = "ping" ∧ (s.heap cl).Args.length = 2) ∨
      ((s.heap cl).Do = "exec" ∧ 1 ≤ (s.heap cl).Args.length) := by
  unfold Verify
  by_cases hp : (s.heap cl).Do = "ping"
  · have hne : ¬ ("ping" : String) = "exec" := by decide
    by_cases h2 : (s.heap cl).Args.length = 2 <;> simp [hp, h2, hne]
  · by_cases he : (s.heap cl).Do = "exec"
    · by_cases h0 : (s.heap cl).Args.length = 0
      · simp [hp, he, h0]
      · have : 1 ≤ (s.heap cl).Args.length := Nat.one_le_iff_ne_zero.mpr h0
        simp [hp, he, h0, this]
    · simp [hp, he]

theorem Verify_fst (s : State) (cl : Ptr) : (Verify s cl).1 = s := by
  unfold Verify
  split_ifs <;> rfl

/-- C1.  For every `ConfigLine`, `Verify` returns nil iff `Do` is "ping" with
exactly two `Args` or `Do` is "exec" with at least one; for every other `Do`
it returns an `UnknownDoErr` carrying that string whatever `Args` is; and the
call leaves the task (the whole state) unchanged. -/
theorem Verify_accepts_iff (s : State) (cl : Ptr) :
    ((Verify s cl).2 = none ↔
      ((s.heap cl).Do = "ping" ∧ (s.heap cl).Args.length = 2) ∨
      ((s.heap cl).Do = "exec" ∧ 1 ≤ (s.heap cl).Args.length)) ∧
    ((s.heap cl).Do ≠ "ping" → (s.heap cl).Do ≠ "exec" →
      (Verify s cl).2 = some (.unknownDo { Do := (s.heap cl).Do })) ∧
    (Verify s cl).1 = s := by
  refine ⟨Verify_none_iff s cl, ?_, Verify_fst s cl⟩
  intro hp he
  simp [Verify, hp, he]

/-! ## Claims about a single `Run` -/

theorem callRunError_bound (onErr : State → Ptr → Error → Except Abort State)
    (s : State) (cl : Ptr) (err : Error)
    (hcb : (s.heap cl).runError = some .onRunError) :
    callRunError onErr s cl err = onErr s cl err := by
  simp [callRunError, hcb]

theorem runError_setRunning (s : State) (cl q : Ptr) (b : Bool) :
    ((setRunning s cl b).heap q).runError = (s.heap q).runError := by
  by_cases h : q = cl
  · subst h; simp [setRunning]
  · rw [heap_setRunning_other s cl q b h]

theorem Run_of_running (onErr : State → Ptr → Error → Except Abort State) (w : World)
    (s : State) (cl : Ptr) (hrun : Running s cl = true) :
    Run onErr w s cl = callRunError onErr s cl alreadyRunningError := by
  simp [Run, hrun]

theorem Run_of_not_running (onErr : State → Ptr → Error → Except Abort State)
    (w : World) (s : State) (cl : Ptr) (hrun : Running s cl = false) :
    Run onErr w s cl =
      (runSwitch onErr w (setRunning s cl true) cl).map
        fun (s : State) => setRunning s cl false := by
  simp [Run, hrun]

/-- The switch of `Run`, for a task that passed `Verify` and has its callback
bound: it returns without calling back when the action succeeds and is one
call of the callback, followed by deferred work, when it fails. -/
theorem runSwitch_verified (w : World) (s : State) (cl : Ptr)
    (hv : (Verify s cl).2 = none)
    (hcb : (s.heap cl).runError = some .onRunError) :
    (actionSucceeds w s cl = true →
      ∃ s2, ∀ onErr, runSwitch onErr w s cl = .ok s2) ∧
    (actionSucceeds w s cl = false →
      ∃ e err post, ∀ onErr,
        runSwitch onErr w s cl = (onErr (s.emit e) cl err).map post) := by
  have hcall : ∀ onErr e err, callRunError onErr (s.emit e) cl err = onErr (s.emit e) cl err :=
    fun onErr e err => callRunError_bound onErr _ cl err hcb
  have hid : ∀ x : Except Abort State, x = x.map id := by
    intro x; cases x <;> rfl
  rcases (Verify_none_iff s cl).1 hv with ⟨hp, hlen⟩ | ⟨he, hlen⟩
  · obtain ⟨url, expected, hargs⟩ : ∃ a b, (s.heap cl).Args = [a, b] := by
      match h : (s.heap cl).Args, hlen with
      | [a, b], _ => exact ⟨a, b, rfl⟩
    cases hget : w.Get s url with
    | error err =>
      refine ⟨by simp [actionSucceeds, hp, hargs, hget],
        fun _ => ⟨.httpGet url, err, id, fun onErr => ?_⟩⟩
      simp only [runSwitch, hp, hargs, hget, if_true, hcall]
      exact hid _
    | ok res =>
      cases hbody : res.Body with
      | error err =>
        refine ⟨by simp [actionSucceeds, hp, hargs, hget, hbody], fun _ =>
          ⟨.httpGet url, err, fun st => st.emit .bodyClose, fun onErr => ?_⟩⟩
        simp only [runSwitch, hp, hargs, hget, hbody, if_true, hcall]
      | ok responseString =>
        by_cases heq : responseString = expected
        · refine ⟨fun _ => ⟨(s.emit (.httpGet url)).emit .bodyClose, fun onErr => ?_⟩, ?_⟩
          · simp [runSwitch, hp, hargs, hget, hbody, heq, Except.map]
          · simp [actionSucceeds, hp, hargs, hget, hbody, heq]
        · refine ⟨by simp [actionSucceeds, hp, hargs, hget, hbody, heq], fun _ =>
            ⟨.httpGet url,
              .errorf ("Expected \"" ++ expected ++ "\", got: \"" ++ responseString ++ "\"."),
              fun st => st.emit .bodyClose, fun onErr => ?_⟩⟩
          simp only [runSwitch, hp, hargs, hget, hbody, List.tail_cons, ne_eq, heq,
            not_false_eq_true, if_true, hcall]
  · obtain ⟨name, args, hargs⟩ : ∃ a l, (s.heap cl).Args = a :: l := by
      match h : (s.heap cl).Args, hlen with
      | a :: l, _ => exact ⟨a, l, rfl⟩
    have hne : ¬ ("exec" : String) = "ping" := by decide
    rcases hout : w.CombinedOutput s name args with ⟨output, _ | err⟩
    · refine ⟨fun _ => ⟨s.emit (.command name args), fun _ => ?_⟩,
        by simp [actionSucceeds, he, hne, hargs, hout]⟩
      simp only [runSwitch, he, hne, hargs, hout, if_true, if_false]
    · refine ⟨by simp [actionSucceeds, he, hne, hargs, hout],
        fun _ => ⟨.command name args,
          .errorf ("Failed to run command result. Error: " ++ err.message ++
            ", output: " ++ output), id, fun onErr => ?_⟩⟩
      simp only [runSwitch, he, hne, hargs, hout, if_true, if_false, hcall]
      exact hid _

@[simp]
theorem Running_emit (s : State) (e : Event) (cl : Ptr) :
    Running (s.emit e) cl = Running s cl := rfl

@[simp]
theorem Running_setRunning (s : State) (cl : Ptr) (b : Bool) :
    Running (setRunning s cl b) cl = b := by simp [Running]

theorem Do_setRunning (s : State) (cl q : Ptr) (b : Bool) :
    ((setRunning s cl b).heap q).Do = (s.heap q).Do := by
  by_cases h : q = cl
  · subst h; simp [setRunning]
  · rw [heap_setRunning_other s cl q b h]

theorem Args_setRunning (s : State) (cl q : Ptr) (b : Bool) :
    ((setRunning s cl b).heap q).Args = (s.heap q).Args := by
  by_cases h : q = cl
  · subst h; simp [setRunning]
  · rw [heap_setRunning_other s cl q b h]

theorem Verify_setRunning (s : State) (cl q : Ptr) (b : Bool) :
    (Verify (setRunning s cl b) q).2 = none ↔ (Verify s q).2 = none := by
  rw [Verify_none_iff, Verify_none_iff, Do_setRunning, Args_setRunning]

theorem map_map (f g : State → State) (x : Except Abort State) :
    (x.map f).map g = x.map (fun s => g (f s)) := by
  cases x <;> rfl

theorem callRunError_heldOnly (onErr : State → Ptr → Error → Except Abort State)
    (s : State) (cl : Ptr) (err : Error) (hrun : Running s cl = true) :
    callRunError (heldOnly cl onErr) s cl err = callRunError onErr s cl err := by
  simp [callRunError, heldOnly, hrun]

theorem runSwitch_heldOnly (onErr : State → Ptr → Error → Except Abort State)
    (w : World) (s : State) (cl : Ptr) (hrun : Running s cl = true) :
    runSwitch (heldOnly cl onErr) w s cl = runSwitch onErr w s cl := by
  have h : ∀ e err, callRunError (heldOnly cl onErr) (s.emit e) cl err =
      callRunError onErr (s.emit e) cl err :=
    fun e err => callRunError_heldOnly onErr _ cl err (by simpa using hrun)
  simp only [runSwitch, h]

theorem runSwitch_world_heldOnly (onErr : State → Ptr → Error → Except Abort State)
    (w : World) (s : State) (cl : Ptr) (hrun : Running s cl = true) :
    runSwitch onErr (w.heldOnly cl) s cl = runSwitch onErr w s cl := by
  simp [runSwitch, World.heldOnly, hrun]

/-- C6.  For a task that passes `Verify`, is not running and has its callback
bound: when the action succeeds `Run` returns a state that does not depend on
the callback (it is not called); when the action fails `Run` is exactly one
call of the callback, on that task, followed by deferred work; and `Run`
itself never panics ("unreachable", index out of range): whenever it does not
return, that is the callback's own doing. -/
theorem Run_calls_back_iff_action_fails (w : World) (s : State) (cl : Ptr)
    (hv : (Verify s cl).2 = none) (hrun : Running s cl = false)
    (hcb : (s.heap cl).runError = some .onRunError) :
    (actionSucceeds w (setRunning s cl true) cl = true →
      ∃ s2, ∀ onErr, Run onErr w s cl = .ok s2) ∧
    (actionSucceeds w (setRunning s cl true) cl = false →
      ∃ s1 err post, ∀ onErr, Run onErr w s cl = (onErr s1 cl err).map post) ∧
    (∀ onErr a, Run onErr w s cl = .error a →
      ∃ s1 err, onErr s1 cl err = .error a) := by
  have hv1 : (Verify (setRunning s cl true) cl).2 = none := (Verify_setRunning s cl cl true).2 hv
  have hcb1 : ((setRunning s cl true).heap cl).runError = some .onRunError := by
    rw [runError_setRunning]; exact hcb
  obtain ⟨hok, hfail⟩ := runSwitch_verified w (setRunning s cl true) cl hv1 hcb1
  have h1 : actionSucceeds w (setRunning s cl true) cl = true →
      ∃ s2, ∀ onErr, Run onErr w s cl = .ok s2 := by
    intro h
    obtain ⟨s2, hs2⟩ := hok h
    exact ⟨setRunning s2 cl false, fun onErr => by
      rw [Run_of_not_running onErr w s cl hrun, hs2 onErr]; rfl⟩
  have h2 : actionSucceeds w (setRunning s cl true) cl = false →
      ∃ s1 err post, ∀ onErr, Run onErr w s cl = (onErr s1 cl err).map post := by
    intro h
    obtain ⟨e, err, post, hs⟩ := hfail h
    exact ⟨(setRunning s cl true).emit e, err, fun st => setRunning (post st) cl false,
      fun onErr => by rw [Run_of_not_running onErr w s cl hrun, hs onErr, map_map]⟩
  refine ⟨h1, h2, ?_⟩
  intro onErr a hm
  cases hact : actionSucceeds w (setRunning s cl true) cl with
  | true =>
    obtain ⟨s2, hs2⟩ := h1 hact
    rw [hs2 onErr] at hm
    cases hm
  | false =>
    obtain ⟨s1, err, post, hs⟩ := h2 hact
    refine ⟨s1, err, ?_⟩
    rw [hs onErr] at hm
    cases hx : onErr s1 cl err with
    | ok st => rw [hx] at hm; cases hm
    | error a => rw [hx] at hm; simpa [Except.map] using hm

/-! ## The verify loop -/

theorem State.ext_fields {s t : State} (h1 : s.heap = t.heap) (h2 : s.next = t.next)
    (h3 : s.schConfig = t.schConfig) (h4 : s.sch = t.sch)
    (h5 : s.errorJobs = t.errorJobs) (h6 : s.trace = t.trace) : s = t := by
  cases s; cases t; simp_all

theorem Verify_eq (s : State) (cl : Ptr) : Verify s cl = (s, (Verify s cl).2) := by
  exact Prod.ext (Verify_fst s cl) rfl

theorem Valid_congr (w : World) (s t : State) (tasks : List Ptr)
    (hAt : ∀ q, (t.heap q).At = (s.heap q).At) (hDo : ∀ q, (t.heap q).Do = (s.heap q).Do)
    (hArgs : ∀ q, (t.heap q).Args = (s.heap q).Args) :
    Valid w t tasks ↔ Valid w s tasks := by
  unfold Valid
  simp only [Verify_none_iff, hAt, hDo, hArgs]

theorem Valid_store_runError (w : World) (s : State) (p : Ptr) (tasks : List Ptr) :
    Valid w (s.store p { s.heap p with runError := some .onRunError }) tasks ↔
      Valid w s tasks := by
  apply Valid_congr <;> intro q <;> by_cases h : q = p
  all_goals first
    | (subst h; simp)
    | (rw [heap_store_other _ _ _ _ h])

theorem bindAll_nil (s : State) : bindAll s [] = s := by
  apply State.ext_fields <;> simp [bindAll]

theorem bindAll_cons (s : State) (p : Ptr) (rest : List Ptr) :
    bindAll (s.store p { s.heap p with runError := some .onRunError }) rest =
      bindAll s (p :: rest) := by
  apply State.ext_fields <;> try rfl
  funext q
  by_cases hq : q = p <;> by_cases hr : q ∈ rest <;>
    simp [bindAll, State.store, hq, hr]

/-- The verify loop on a valid list: it binds every callback and falls
through. -/
theorem verifyTasks_valid (w : World) (tasks : List Ptr) :
    ∀ s, Valid w s tasks → verifyTasks w s tasks = (bindAll s tasks, true) := by
  induction tasks with
  | nil => intro s _; simp [verifyTasks, bindAll_nil]
  | cons p rest ih =>
    intro s hv
    have hp := hv p (List.mem_cons_self _ _)
    have hrest : Valid w s rest := fun q hq => hv q (List.mem_cons_of_mem _ hq)
    have hparse : (if (s.heap p).At ≠ "@error" then w.Parse (s.heap p).At else none) = none := by
      by_cases h : (s.heap p).At = "@error"
      · simp [h]
      · simp [h, hp.2 h]
    rw [verifyTasks, Verify_eq s p, hp.1]
    simp only [hparse]
    rw [ih _ ((Valid_store_runError w s p rest).2 hrest), bindAll_cons]

/-- The verify loop on a list with an invalid task: it leaves through
`continue work` after one warning, having touched nothing but the callback
field of tasks of the list. -/
theorem verifyTasks_invalid (w : World) (tasks : List Ptr) :
    ∀ s, ¬ Valid w s tasks →
      ∃ s2 msg, verifyTasks w s tasks = (s2, false) ∧
        s2.trace = s.trace ++ [.logWarning msg] ∧ s2.sch = s.sch ∧
        s2.errorJobs = s.errorJobs ∧ s2.next = s.next ∧ s2.schConfig = s.schConfig ∧
        ∀ q, q ∉ tasks → s2.heap q = s.heap q := by
  induction tasks with
  | nil => intro s h; exact absurd (fun _ hq => by cases hq) h
  | cons p rest ih =>
    intro s hv
    rw [verifyTasks, Verify_eq s p]
    by_cases hparse : (s.heap p).At ≠ "@error" ∧ w.Parse (s.heap p).At ≠ none
    · obtain ⟨hat, hne⟩ := hparse
      obtain ⟨perr, hperr⟩ := Option.ne_none_iff_exists'.mp hne
      refine ⟨s.emit (.logWarning (.badSchedule (s.heap p).At perr)), _, ?_, rfl, rfl, rfl,
        rfl, rfl, fun _ _ => rfl⟩
      simp [hat, hperr]
    · have hpok : (if (s.heap p).At ≠ "@error" then w.Parse (s.heap p).At else none) = none := by
        by_cases h : (s.heap p).At = "@error"
        · simp [h]
        · have : w.Parse (s.heap p).At = none := by
            by_contra hc; exact hparse ⟨h, hc⟩
          simp [h, this]
      simp only [hpok]
      cases hver : (Verify s p).2 with
      | some err =>
        exact ⟨s.emit (.logWarning (.badTask err)), _, rfl, rfl, rfl, rfl, rfl, rfl,
          fun _ _ => rfl⟩
      | none =>
        have hrest : ¬ Valid w s rest := by
          intro hr
          apply hv
          intro q hq
          rcases List.mem_cons.mp hq with rfl | hq
          · refine ⟨hver, fun h => ?_⟩
            by_contra hc; exact hparse ⟨h, hc⟩
          · exact hr q hq
        obtain ⟨s2, msg, h1, h2, h3, h4, h5, h6, h7⟩ :=
          ih _ (fun h => hrest ((Valid_store_runError w s p rest).1 h))
        refine ⟨s2, msg, h1, h2, h3, h4, h5, h6, fun q hq => ?_⟩
        rw [h7 q (fun h => hq (List.mem_cons_of_mem _ h))]
        exact heap_store_other _ _ _ _ (fun h => hq (h ▸ List.mem_cons_self _ _))

/-! ## The install loop -/

theorem installed_nil (s : State) : installed s [] = s := by
  apply State.ext_fields <;> simp [installed]

theorem At_store_isErrorJob (s : State) (p q : Ptr) :
    ((s.store p { s.heap p with isErrorJob := true }).heap q).At = (s.heap q).At := by
  by_cases hq : q = p
  · subst hq; simp [State.store]
  · simp [State.store, hq]

theorem installed_cons_error (s : State) (p : Ptr) (rest : List Ptr)
    (hat : (s.heap p).At = "@error") :
    installed { s.store p { s.heap p with isErrorJob := true } with
      errorJobs := (s.store p { s.heap p with isErrorJob := true }).errorJobs ++ [p] } rest =
      installed s (p :: rest) := by
  have hAt := At_store_isErrorJob s p
  apply State.ext_fields
  · funext q
    simp only [installed, hAt]
    by_cases hq : q = p
    · subst hq
      by_cases hr : q ∈ rest <;> simp [State.store, hat, hr]
    · by_cases hr : q ∈ rest <;> simp [State.store, hq, hr]
  · rfl
  · rfl
  · simp only [installed, hAt]
    simp [List.filter_cons, hat]
  · simp only [installed, hAt]
    simp [List.filter_cons, hat]
  · simp only [installed, hAt]
    simp [List.filter_cons, hat]

theorem installed_cons_job (s : State) (p : Ptr) (rest : List Ptr)
    (hat : ¬ (s.heap p).At = "@error") :
    installed ({ s with
      sch := { s.sch with entries := s.sch.entries ++ [((s.heap p).At, p)] } }.emit
        (.cronAddJob (s.heap p).At p)) rest =
      installed s (p :: rest) := by
  apply State.ext_fields
  · funext q
    by_cases hq : q = p
    · subst hq; simp [installed, State.emit, hat]
    · simp [installed, State.emit, hq]
  · rfl
  · rfl
  · simp [installed, State.emit, List.filter_cons, hat]
  · simp [installed, State.emit, List.filter_cons, hat]
  · simp [installed, State.emit, List.filter_cons, hat]

/-- The install loop, when every schedule it adds parses: it ends in
`installed`. -/
theorem installTasks_parsed (w : World) (tasks : List Ptr) :
    ∀ s, (∀ sc ∈ tasks, (s.heap sc).At ≠ "@error" → w.Parse (s.heap sc).At = none) →
      installTasks w s tasks = .ok (installed s tasks) := by
  induction tasks with
  | nil => intro s _; simp [installTasks, installed_nil]
  | cons p rest ih =>
    intro s hp
    by_cases hat : (s.heap p).At = "@error"
    · rw [installTasks, if_pos hat]
      simp only []
      rw [ih, installed_cons_error s p rest hat]
      intro sc hsc
      have := hp sc (List.mem_cons_of_mem _ hsc)
      simpa only [At_store_isErrorJob] using this
    · have hparse := hp p (List.mem_cons_self _ _) hat
      rw [installTasks, if_neg hat]
      simp only [Cron.AddJob, hparse]
      rw [ih, installed_cons_job s p rest hat]
      intro sc hsc
      exact hp sc (List.mem_cons_of_mem _ hsc)

/-! ## One turn of the reload loop -/

@[simp]
theorem candidate_sch (s : State) (raw : RawConfig) :
    (candidate s raw).sch = s.sch := rfl

@[simp]
theorem candidate_errorJobs (s : State) (raw : RawConfig) :
    (candidate s raw).errorJobs = s.errorJobs := rfl

@[simp]
theorem candidate_trace (s : State) (raw : RawConfig) :
    (candidate s raw).trace = s.trace := rfl

@[simp]
theorem candidate_tasks (s : State) (raw : RawConfig) :
    (candidate s raw).schConfig.Tasks = List.range' s.next raw.Tasks.length := rfl

@[simp]
theorem candidate_UTC (s : State) (raw : RawConfig) :
    (candidate s raw).schConfig.UTC = raw.UTC := rfl

theorem candidate_heap_old (s : State) (raw : RawConfig) (q : Ptr) (hq : q < s.next) :
    (candidate s raw).heap q = s.heap q := by
  simp [candidate, Load, Nat.not_le.mpr hq]

theorem candidate_heap_new (s : State) (raw : RawConfig) (i : Nat) (r : TaskRecord)
    (hr : raw.Tasks.get? i = some r) :
    (candidate s raw).heap (s.next + i) = r.fresh := by
  simp only [candidate, Load, Nat.le_add_right, if_true, Nat.add_sub_cancel_left, hr]

theorem candidate_heap_task (s : State) (raw : RawConfig) (sc : Ptr)
    (hsc : sc ∈ (candidate s raw).schConfig.Tasks) :
    ∃ r ∈ raw.Tasks, (candidate s raw).heap sc = r.fresh := by
  rw [candidate_tasks, List.mem_range'_1] at hsc
  obtain ⟨h1, h2⟩ := hsc
  obtain ⟨i, rfl⟩ := Nat.exists_eq_add_of_le h1
  have hi : i < raw.Tasks.length := by omega
  refine ⟨raw.Tasks.get ⟨i, hi⟩, List.get_mem _ _ _, ?_⟩
  exact candidate_heap_new s raw i _ (List.get?_eq_get hi)

theorem not_mem_tasks_of_old (s : State) (raw : RawConfig) (q : Ptr) (hq : q < s.next) :
    q ∉ (candidate s raw).schConfig.Tasks := by
  rw [candidate_tasks, List.mem_range'_1]
  exact fun h => absurd h.1 (Nat.not_le.mpr hq)

theorem At_bindAll (s : State) (tasks : List Ptr) (q : Ptr) :
    ((bindAll s tasks).heap q).At = (s.heap q).At := by
  by_cases h : q ∈ tasks <;> simp [bindAll, h]

/-- A turn of the loop on an accepted document ends in `swapped`. -/
theorem reload_accepted (w : World) (s : State) (raw : RawConfig)
    (hv : Accepted w s raw) :
    reload w s (.ok raw) =
      .ok (swapped (bindAll (candidate s raw) (candidate s raw).schConfig.Tasks)) := by
  have hload : Load s (.ok raw) = (candidate s raw, none) := rfl
  have hparse : ∀ sc ∈ (candidate s raw).schConfig.Tasks,
      ((bindAll (candidate s raw) (candidate s raw).schConfig.Tasks).heap sc).At ≠ "@error" →
      w.Parse ((bindAll (candidate s raw) (candidate s raw).schConfig.Tasks).heap sc).At
        = none := by
    intro sc hsc
    rw [At_bindAll]
    exact (hv sc hsc).2
  rw [reload, hload]
  simp only []
  rw [verifyTasks_valid w _ _ hv]
  simp only []
  rw [installTasks_parsed w _ _ (by exact hparse)]
  rfl

/-- A turn of the loop on a rejected document: one warning, and the
scheduler, the error-task list and every object allocated before the turn are
as they were. -/
theorem reload_rejected (w : World) (s : State) (raw : RawConfig)
    (hv : ¬ Accepted w s raw) :
    ∃ s2 msg, reload w s (.ok raw) = .ok s2 ∧
      s2.trace = s.trace ++ [.logWarning msg] ∧ s2.sch = s.sch ∧
      s2.errorJobs = s.errorJobs ∧ (∀ q, q < s.next → s2.heap q = s.heap q) ∧
      s.next ≤ s2.next := by
  have hload : Load s (.ok raw) = (candidate s raw, none) := rfl
  obtain ⟨s2, msg, h1, h2, h3, h4, h5, -, h7⟩ := verifyTasks_invalid w _ _ hv
  refine ⟨s2, msg, ?_, h2, h3, h4, fun q hq => ?_, ?_⟩
  · rw [reload, hload]
    simp only []
    rw [h1]
  · rw [h7 q (not_mem_tasks_of_old s raw q hq), candidate_heap_old s raw q hq]
  · rw [h5]
    exact Nat.le_add_right _ _

@[simp]
theorem swapped_schConfig (c : State) : (swapped c).schConfig = c.schConfig := rfl

@[simp]
theorem swapped_next (c : State) : (swapped c).next = c.next := rfl

@[simp]
theorem swapped_UTC (c : State) : (swapped c).sch.UTC = true := rfl

theorem swapped_errorJobs (c : State) :
    (swapped c).errorJobs =
      c.schConfig.Tasks.filter (fun sc => (c.heap sc).At = "@error") := by
  simp [swapped, installed]

theorem swapped_entries (c : State) :
    (swapped c).sch.entries =
      (c.schConfig.Tasks.filter (fun sc => (c.heap sc).At ≠ "@error")).map
        (fun sc => ((c.heap sc).At, sc)) := by
  simp [swapped, installed, Cron.Start, Cron.New]

theorem swapped_heap (c : State) (q : Ptr) :
    (swapped c).heap q =
      if q ∈ c.schConfig.Tasks ∧ (c.heap q).At = "@error" then
        { c.heap q with isErrorJob := true }
      else c.heap q := by
  simp [swapped, installed]

theorem At_swapped (c : State) (q : Ptr) : ((swapped c).heap q).At = (c.heap q).At := by
  rw [swapped_heap]
  split_ifs <;> rfl

/-! ## Claims about the reload loop -/

/-- C2.  Reload is all-or-nothing: when a task of the loaded candidate fails
`Verify`, or has an `At` other than "@error" that `Parse` rejects, the turn of
the loop returns with the scheduler unchanged (not stopped, not replaced, the
same armed entries), the error-task list unchanged and every task object that
existed before the turn unchanged; the only outside call is one warning. -/
theorem reload_all_or_nothing (w : World) (s : State) (raw : RawConfig)
    (hbad : ∃ sc ∈ (candidate s raw).schConfig.Tasks,
      (Verify (candidate s raw) sc).2 ≠ none ∨
      (((candidate s raw).heap sc).At ≠ "@error" ∧
        w.Parse ((candidate s raw).heap sc).At ≠ none)) :
    ∃ s2 msg, reload w s (.ok raw) = .ok s2 ∧
      s2.sch = s.sch ∧ s2.errorJobs = s.errorJobs ∧
      (∀ q, q < s.next → s2.heap q = s.heap q) ∧
      s2.trace = s.trace ++ [.logWarning msg] := by
  have hv : ¬ Accepted w s raw := by
    intro hacc
    obtain ⟨sc, hsc, h⟩ := hbad
    rcases h with h | ⟨h1, h2⟩
    · exact h (hacc sc hsc).1
    · exact h2 ((hacc sc hsc).2 h1)
  obtain ⟨s2, msg, h1, h2, h3, h4, h5, -⟩ := reload_rejected w s raw hv
  exact ⟨s2, msg, h1, h3, h4, h5, h2⟩

/-- C7 (the code at the claim's failing input).  Reloading `SampleConfig`,
whose `UTC` is false, leaves the new scheduler with `UTC` true. -/
theorem reload_SampleConfig_sets_UTC :
    ∃ s2, reload exampleWorld initState (.ok SampleConfig) = .ok s2 ∧
      s2.schConfig.UTC = false ∧ s2.sch.UTC = true :=
  ⟨_, reload_accepted exampleWorld initState SampleConfig (by decide), rfl, rfl⟩

theorem record_fresh (r : TaskRecord) : r.fresh.record = r := rfl

theorem candidate_records (s : State) (raw : RawConfig) :
    (candidate s raw).schConfig.Tasks.map (fun sc => ((candidate s raw).heap sc).record) =
      raw.Tasks := by
  apply List.ext_getElem
  · simp
  · intro i h1 h2
    simp only [candidate_tasks, List.getElem_map, List.getElem_range', Nat.one_mul]
    rw [candidate_heap_new s raw i raw.Tasks[i] (by simp [h2]), record_fresh]

theorem record_bindAll (s : State) (tasks : List Ptr) (q : Ptr) :
    ((bindAll s tasks).heap q).record = (s.heap q).record := by
  by_cases h : q ∈ tasks <;> simp [bindAll, h, ConfigLine.record]

theorem record_swapped (c : State) (q : Ptr) :
    ((swapped c).heap q).record = (c.heap q).record := by
  rw [swapped_heap]
  split_ifs <;> rfl

theorem isErrorJob_bindAll (s : State) (tasks : List Ptr) (q : Ptr) :
    ((bindAll s tasks).heap q).isErrorJob = (s.heap q).isErrorJob := by
  by_cases h : q ∈ tasks <;> simp [bindAll, h]

theorem runError_bindAll (s : State) (tasks : List Ptr) (q : Ptr) (h : q ∈ tasks) :
    ((bindAll s tasks).heap q).runError = some .onRunError := by
  simp [bindAll, h]

theorem runError_swapped (c : State) (q : Ptr) :
    ((swapped c).heap q).runError = (c.heap q).runError := by
  rw [swapped_heap]
  split_ifs <;> rfl

theorem running_swapped (c : State) (q : Ptr) :
    ((swapped c).heap q).running = (c.heap q).running := by
  rw [swapped_heap]
  split_ifs <;> rfl

theorem isErrorJob_candidate_task (s : State) (raw : RawConfig) (sc : Ptr)
    (hsc : sc ∈ (candidate s raw).schConfig.Tasks) :
    ((candidate s raw).heap sc).isErrorJob = false := by
  obtain ⟨r, -, hr⟩ := candidate_heap_task s raw sc hsc
  rw [hr]; rfl

theorem isErrorJob_swapped (c : State) (q : Ptr) (hq : q ∈ c.schConfig.Tasks)
    (h0 : (c.heap q).isErrorJob = false) :
    ((swapped c).heap q).isErrorJob = true ↔ ((swapped c).heap q).At = "@error" := by
  rw [At_swapped, swapped_heap]
  by_cases hat : (c.heap q).At = "@error"
  · rw [if_pos ⟨hq, hat⟩]
    exact ⟨fun _ => hat, fun _ => rfl⟩
  · rw [if_neg (fun h => hat h.2), h0]
    exact ⟨fun h => absurd h (by decide), fun h => absurd h hat⟩

/-- The flag of a task of the installed configuration after an accepted
reload. -/
theorem isErrorJob_after (s : State) (raw : RawConfig) (sc : Ptr)
    (hsc : sc ∈ (candidate s raw).schConfig.Tasks) :
    ((swapped (bindAll (candidate s raw) (candidate s raw).schConfig.Tasks)).heap sc).isErrorJob
        = true ↔
      ((swapped (bindAll (candidate s raw) (candidate s raw).schConfig.Tasks)).heap sc).At
        = "@error" := by
  refine isErrorJob_swapped (bindAll (candidate s raw) (candidate s raw).schConfig.Tasks)
    sc hsc ?_
  rw [isErrorJob_bindAll]
  exact isErrorJob_candidate_task s raw sc hsc

/-- C10.  After a successful reload: a task of the installed configuration has
`isErrorJob` set iff its `At` is "@error"; the error-task list is exactly the
tasks with `At` "@error", in order; the scheduler's entries are exactly the
other tasks, each under its `At`, in order; and the installed tasks are the
records of the loaded document. -/
theorem reload_partitions_tasks (w : World) (s : State) (raw : RawConfig)
    (hv : Accepted w s raw) :
    ∃ s2, reload w s (.ok raw) = .ok s2 ∧
      (∀ sc ∈ s2.schConfig.Tasks,
        ((s2.heap sc).isErrorJob = true ↔ (s2.heap sc).At = "@error")) ∧
      s2.errorJobs = s2.schConfig.Tasks.filter (fun sc => (s2.heap sc).At = "@error") ∧
      s2.sch.entries =
        (s2.schConfig.Tasks.filter (fun sc => (s2.heap sc).At ≠ "@error")).map
          (fun sc => ((s2.heap sc).At, sc)) ∧
      s2.schConfig.Tasks.map (fun sc => (s2.heap sc).record) = raw.Tasks := by
  refine ⟨_, reload_accepted w s raw hv, ?_, ?_, ?_, ?_⟩
  · intro sc hsc
    exact isErrorJob_after s raw sc hsc
  · simp only [swapped_errorJobs, At_swapped]
    rfl
  · simp only [swapped_entries, At_swapped]
    rfl
  · simp only [record_swapped, record_bindAll]
    exact candidate_records s raw

/-- C10 at `SampleConfig`, loaded into the initial state. -/
theorem reload_partitions_tasks_witness :
    Accepted exampleWorld initState SampleConfig ∧
    ∃ s2, reload exampleWorld initState (.ok SampleConfig) = .ok s2 ∧
      (∀ sc ∈ s2.schConfig.Tasks,
        ((s2.heap sc).isErrorJob = true ↔ (s2.heap sc).At = "@error")) ∧
      s2.errorJobs = s2.schConfig.Tasks.filter (fun sc => (s2.heap sc).At = "@error") ∧
      s2.sch.entries =
        (s2.schConfig.Tasks.filter (fun sc => (s2.heap sc).At ≠ "@error")).map
          (fun sc => ((s2.heap sc).At, sc)) ∧
      s2.schConfig.Tasks.map (fun sc => (s2.heap sc).record) = SampleConfig.Tasks :=
  ⟨by decide, reload_partitions_tasks exampleWorld initState SampleConfig (by decide)⟩

/-! ## Invariants of `Run` -/

theorem callRunError_inv (I : State → Prop)
    (onErr : State → Ptr → Error → Except Abort State) (cl : Ptr)
    (hon : ∀ st err st2, I st → onErr st cl err = .ok st2 → I st2)
    (s s2 : State) (err : Error) (hs : I s)
    (h : callRunError onErr s cl err = .ok s2) : I s2 := by
  unfold callRunError at h
  split at h
  · cases h
  · exact hon _ _ _ hs h

theorem runSwitch_inv (I : State → Prop)
    (onErr : State → Ptr → Error → Except Abort State) (w : World) (cl : Ptr)
    (hemit : ∀ st e, I st → I (st.emit e))
    (hon : ∀ st err st2, I st → onErr st cl err = .ok st2 → I st2)
    (s s2 : State) (hs : I s) (h : runSwitch onErr w s cl = .ok s2) : I s2 := by
  have hc : ∀ e err st2, callRunError onErr (s.emit e) cl err = .ok st2 → I st2 :=
    fun e err st2 h => callRunError_inv I onErr cl hon _ _ err (hemit _ _ hs) h
  unfold runSwitch at h
  split_ifs at h with hp he
  · split at h
    · cases h
    · split at h
      · exact hc _ _ _ h
      · rw [map_eq_ok] at h
        obtain ⟨s1, h, rfl⟩ := h
        apply hemit
        split at h
        · exact hc _ _ _ h
        · split at h
          · cases h
          · split_ifs at h
            · exact hc _ _ _ h
            · cases h
              exact hemit _ _ hs
  · split at h
    · cases h
    · split at h
      · exact hc _ _ _ h
      · cases h
        exact hemit _ _ hs

theorem Run_inv (I : State → Prop)
    (onErr : State → Ptr → Error → Except Abort State) (w : World) (cl : Ptr)
    (hemit : ∀ st e, I st → I (st.emit e))
    (hset : ∀ st b, I st → I (setRunning st cl b))
    (hon : ∀ st err st2, I st → onErr st cl err = .ok st2 → I st2)
    (s s2 : State) (hs : I s) (h : Run onErr w s cl = .ok s2) : I s2 := by
  unfold Run at h
  split_ifs at h
  · exact callRunError_inv I onErr cl hon _ _ _ hs h
  · rw [map_eq_ok] at h
    obtain ⟨s1, h, rfl⟩ := h
    exact hset _ _ (runSwitch_inv I onErr w cl hemit hon _ _ (hset _ _ hs) h)

theorem foldlM_inv (I : State → Prop) (run : State → Ptr → Except Abort State)
    (hrun : ∀ st q st2, I st → run st q = .ok st2 → I st2) (l : List Ptr) :
    ∀ s s2, I s → l.foldlM run s = .ok s2 → I s2 := by
  induction l with
  | nil =>
    intro s s2 hs h
    simp only [List.foldlM, pure, Except.pure] at h
    cases h
    exact hs
  | cons q rest ih =>
    intro s s2 hs h
    simp only [List.foldlM, bind, Except.bind] at h
    split at h
    · cases h
    · rename_i s1 hq
      exact ih _ _ (hrun _ _ _ hs hq) h

theorem onRunError_inv (I : State → Prop) (run : State → Ptr → Except Abort State)
    (hemit : ∀ st e, I st → I (st.emit e))
    (hrun : ∀ st q st2, I st → run st q = .ok st2 → I st2)
    (s s2 : State) (cl : Ptr) (err : Error) (hs : I s)
    (h : onRunError run s cl err = .ok s2) : I s2 := by
  unfold onRunError at h
  simp only [] at h
  split_ifs at h
  · cases h
    exact hemit _ _ hs
  · exact foldlM_inv I run hrun _ _ _ (hemit _ _ hs) h

/-- Any property of the state that outside calls and writes of running flags
preserve is preserved by a run of a task under the program's callback. -/
theorem RunFuel_inv (I : State → Prop) (w : World)
    (hemit : ∀ st e, I st → I (st.emit e))
    (hset : ∀ st q b, I st → I (setRunning st q b)) :
    ∀ fuel s cl s2, I s → RunFuel fuel w s cl = .ok s2 → I s2 := by
  intro fuel
  induction fuel with
  | zero => intro s cl s2 _ h; cases h
  | succ n ih =>
    intro s cl s2 hs h
    rw [RunFuel] at h
    exact Run_inv I _ w cl hemit (fun st b => hset st cl b)
      (fun st err st2 hst hcall =>
        onRunError_inv I _ hemit (fun a q b ha hb => ih a q b ha hb) st st2 cl err hst hcall)
      s s2 hs h

/-- The running flag of `cl`, once held, is still held after any run of any
task under the program's callback. -/
theorem RunFuel_keeps_held (w : World) (cl : Ptr) :
    ∀ fuel s q s2, Running s cl = true → RunFuel fuel w s q = .ok s2 →
      Running s2 cl = true := by
  intro fuel
  induction fuel with
  | zero => intro s q s2 _ h; cases h
  | succ n ih =>
    intro s q s2 hs h
    rw [RunFuel] at h
    have hon : ∀ st err st2, Running st cl = true →
        onRunError (RunFuel n w) st q err = .ok st2 → Running st2 cl = true :=
      fun st err st2 hst hcall =>
        onRunError_inv (fun a => Running a cl = true) _ (fun _ _ ha => ha)
          (fun a r b ha hb => ih a r b ha hb) st st2 q err hst hcall
    by_cases hq : q = cl
    · subst hq
      rw [Run_of_running _ w s q hs] at h
      exact callRunError_inv (fun a => Running a q = true) _ q hon _ _ _ hs h
    · refine Run_inv (fun a => Running a cl = true) _ w q (fun _ _ ha => ha) ?_ hon s s2 hs h
      intro st b hst
      simp only [Running] at hst ⊢
      rw [heap_setRunning_other st q cl b (fun h => hq h.symm)]
      exact hst

/-- A run of a verified task with a bound callback returns as soon as the
callback returns in the states in which `Run` can call it. -/
theorem Run_returns (onErr : State → Ptr → Error → Except Abort State) (w : World)
    (s : State) (cl : Ptr) (hv : (Verify s cl).2 = none)
    (hcb : (s.heap cl).runError = some .onRunError)
    (hbusy : ∃ st2, onErr s cl alreadyRunningError = .ok st2)
    (hfail : ∀ e err, ∃ st2, onErr ((setRunning s cl true).emit e) cl err = .ok st2) :
    ∃ s2, Run onErr w s cl = .ok s2 := by
  cases hrun : Running s cl with
  | true =>
    obtain ⟨st2, hst2⟩ := hbusy
    exact ⟨st2, by rw [Run_of_running onErr w s cl hrun, callRunError_bound onErr s cl _ hcb,
      hst2]⟩
  | false =>
    have hv1 : (Verify (setRunning s cl true) cl).2 = none :=
      (Verify_setRunning s cl cl true).2 hv
    have hcb1 : ((setRunning s cl true).heap cl).runError = some .onRunError := by
      rw [runError_setRunning]; exact hcb
    obtain ⟨hok, hfl⟩ := runSwitch_verified w (setRunning s cl true) cl hv1 hcb1
    rw [Run_of_not_running onErr w s cl hrun]
    cases hact : actionSucceeds w (setRunning s cl true) cl with
    | true =>
      obtain ⟨s2, hs2⟩ := hok hact
      exact ⟨setRunning s2 cl false, by rw [hs2 onErr]; rfl⟩
    | false =>
      obtain ⟨e, err, post, hs⟩ := hfl hact
      obtain ⟨st2, hst2⟩ := hfail e err
      exact ⟨setRunning (post st2) cl false, by rw [hs onErr, hst2]; rfl⟩

/-- C9.  For a task whose running flag is false when `Run` is called: whenever
`Run` returns, the flag is false again; the callback is only ever called, and
the action only ever started, in a state where the flag is held (observers
that fail otherwise change nothing); the program's own callback, error tasks
included, returns with the flag still held, so it is held until the deferred
release; and for a verified task with a bound callback that returns, `Run`
returns. -/
theorem Run_holds_and_releases_flag (w : World) (s : State) (cl : Ptr)
    (hrun : Running s cl = false) :
    (∀ onErr s2, Run onErr w s cl = .ok s2 → Running s2 cl = false) ∧
    (∀ onErr, Run (heldOnly cl onErr) w s cl = Run onErr w s cl) ∧
    (∀ onErr, Run onErr (w.heldOnly cl) s cl = Run onErr w s cl) ∧
    (∀ fuel st err st2, Running st cl = true →
      onRunError (RunFuel fuel w) st cl err = .ok st2 → Running st2 cl = true) ∧
    (∀ onErr, (Verify s cl).2 = none → (s.heap cl).runError = some .onRunError →
      (∀ st q err, ∃ st2, onErr st q err = .ok st2) →
      ∃ s2, Run onErr w s cl = .ok s2) := by
  refine ⟨?_, ?_, ?_, ?_, ?_⟩
  · intro onErr s2 h
    rw [Run_of_not_running onErr w s cl hrun, map_eq_ok] at h
    obtain ⟨s1, -, rfl⟩ := h
    simp
  · intro onErr
    rw [Run_of_not_running _ w s cl hrun, Run_of_not_running _ w s cl hrun,
      runSwitch_heldOnly onErr w _ cl (by simp)]
  · intro onErr
    rw [Run_of_not_running _ _ s cl hrun, Run_of_not_running _ _ s cl hrun,
      runSwitch_world_heldOnly onErr w _ cl (by simp)]
  · intro fuel st err st2 hst h
    exact onRunError_inv (fun a => Running a cl = true) _ (fun _ _ ha => ha)
      (fun a q b ha hb => RunFuel_keeps_held w cl fuel a q b ha hb) st st2 cl err hst h
  · intro onErr hv hcb htotal
    exact Run_returns onErr w s cl hv hcb (htotal _ _ _) (fun e err => htotal _ _ _)

/-- C3.  For a task whose running flag is true when `Run` is called (and whose
callback is bound): `Run` is exactly one call of the failure callback, on the
unchanged state, with that task and `alreadyRunningError`; nothing is added
before or after the call, so no action starts and the flag is not written; and
under the program's own callback the flag is still true whenever `Run`
returns. -/
theorem Run_rejects_while_running (w : World) (s : State) (cl : Ptr)
    (hrun : Running s cl = true) (hcb : (s.heap cl).runError = some .onRunError) :
    (∀ onErr, Run onErr w s cl = onErr s cl alreadyRunningError) ∧
    (∀ fuel s2, RunFuel fuel w s cl = .ok s2 → Running s2 cl = true) := by
  refine ⟨fun onErr => ?_, fun fuel s2 h => RunFuel_keeps_held w cl fuel s cl s2 hrun h⟩
  rw [Run_of_running onErr w s cl hrun, callRunError_bound onErr s cl _ hcb]

/-! ## Failure escalation -/

theorem isErrorJob_setRunning (s : State) (cl q : Ptr) (b : Bool) :
    ((setRunning s cl b).heap q).isErrorJob = (s.heap q).isErrorJob := by
  by_cases h : q = cl
  · subst h; simp [setRunning]
  · rw [heap_setRunning_other s cl q b h]

theorem callRunError_errorJob (run : State → Ptr → Except Abort State)
    (s : State) (cl : Ptr) (err : Error) (h : (s.heap cl).isErrorJob = true) :
    callRunError (onRunError run) s cl err = callRunError logOnly s cl err := by
  unfold callRunError
  split
  · rfl
  · simp [onRunError, logOnly, h]

theorem runSwitch_congr (f g : State → Ptr → Error → Except Abort State)
    (w : World) (s : State) (cl : Ptr)
    (h : ∀ e err, callRunError f (s.emit e) cl err = callRunError g (s.emit e) cl err) :
    runSwitch f w s cl = runSwitch g w s cl := by
  simp only [runSwitch, h]

/-- A run of a task flagged as error job, under the program's callback, is a
run whose callback only logs: the callback returns before its loop. -/
theorem Run_errorJob (run : State → Ptr → Except Abort State) (w : World)
    (s : State) (cl : Ptr) (h : (s.heap cl).isErrorJob = true) :
    Run (onRunError run) w s cl = Run logOnly w s cl := by
  unfold Run
  split_ifs
  · exact callRunError_errorJob run s cl _ h
  · rw [runSwitch_congr (onRunError run) logOnly w _ cl]
    intro e err
    apply callRunError_errorJob
    rw [heap_emit, isErrorJob_setRunning]
    exact h

theorem Run_logOnly_isErrorJob (w : World) (s s2 : State) (cl : Ptr)
    (h : Run logOnly w s cl = .ok s2) (q : Ptr) :
    (s2.heap q).isErrorJob = (s.heap q).isErrorJob := by
  refine Run_inv (fun a => (a.heap q).isErrorJob = (s.heap q).isErrorJob) logOnly w cl
    (fun _ _ ha => ha) ?_ ?_ s s2 rfl h
  · intro st b hst
    simp only [] at hst ⊢
    rw [isErrorJob_setRunning]
    exact hst
  · intro st err st2 hst hcall
    simp only [logOnly, Except.ok.injEq] at hcall
    subst hcall
    exact hst

theorem foldlM_errorJobs (w : World) (fuel : Nat) (l : List Ptr) :
    ∀ s, (∀ q ∈ l, (s.heap q).isErrorJob = true) →
      l.foldlM (RunFuel (fuel + 1) w) s = l.foldlM (Run logOnly w) s := by
  induction l with
  | nil => intro s _; rfl
  | cons q rest ih =>
    intro s hs
    have hq : RunFuel (fuel + 1) w s q = Run logOnly w s q := by
      rw [RunFuel]
      exact Run_errorJob _ w s q (hs q (List.mem_cons_self _ _))
    simp only [List.foldlM, hq, bind, Except.bind]
    split
    · rfl
    · rename_i s1 h1
      apply ih
      intro r hr
      rw [Run_logOnly_isErrorJob w s s1 q h1 r]
      exact hs r (List.mem_cons_of_mem _ hr)

theorem onRunError_of_flag (run : State → Ptr → Except Abort State) (s : State)
    (cl : Ptr) (err : Error) (h : (s.heap cl).isErrorJob = true) :
    onRunError run s cl err =
      .ok (s.emit (.logWarning (.jobFailed (s.heap cl).String err))) := by
  simp [onRunError, h]

theorem onRunError_of_no_flag (run : State → Ptr → Except Abort State) (s : State)
    (cl : Ptr) (err : Error) (h : (s.heap cl).isErrorJob = false) :
    onRunError run s cl err =
      s.errorJobs.foldlM run (s.emit (.logWarning (.jobFailed (s.heap cl).String err))) := by
  simp [onRunError, h]

theorem tasks_nodup (s : State) (raw : RawConfig) :
    (candidate s raw).schConfig.Tasks.Nodup := by
  rw [candidate_tasks]
  exact List.nodup_range' _ _

/-- C8, counterexample.  Generation one installs error task 0 and arms task 1;
generation two installs error task 2.  When task 1, installed by generation
one, fails after generation two was installed, the callback runs task 2 (the
command of generation two) and not task 0 (the ping of generation one). -/
theorem stale_task_runs_later_errorJobs :
    ∃ s3,
      reload exampleWorld initState (.ok generationOne) = .ok stateOne ∧
      stateOne.errorJobs = [0] ∧
      stateOne.sch.entries = [("0 5 * * * *", 1)] ∧
      reload exampleWorld stateOne (.ok generationTwo) = .ok stateTwo ∧
      stateTwo.errorJobs = [2] ∧
      onRunError (RunFuel 1 exampleWorld) stateTwo 1 (.external "timeout") = .ok s3 ∧
      s3.trace = stateTwo.trace ++
        [.logWarning (.jobFailed "ping @ 0 5 * * * * <[http://hitthisurl.com/here OK]>"
          (.external "timeout")),
         .command "/bin/notify" []] :=
  ⟨_, reload_accepted exampleWorld initState generationOne (by decide), by decide, by decide,
    reload_accepted exampleWorld stateOne generationTwo (by decide), by decide, rfl, by decide⟩

/-! ## The claims at concrete inputs -/

/-- C2 at `badConfig`, loaded while `SampleConfig` is active. -/
theorem reload_all_or_nothing_witness :
    Rejected exampleWorld sampleState badConfig ∧
    ∃ s2 msg, reload exampleWorld sampleState (.ok badConfig) = .ok s2 ∧
      s2.sch = sampleState.sch ∧ s2.errorJobs = sampleState.errorJobs ∧
      (∀ q, q < sampleState.next → s2.heap q = sampleState.heap q) ∧
      s2.trace = sampleState.trace ++ [.logWarning msg] :=
  ⟨by decide, reload_all_or_nothing exampleWorld sampleState badConfig (by decide)⟩

/-- C3 at task 1 of `sampleState`, marked running. -/
theorem Run_rejects_while_running_witness :
    Running (setRunning sampleState 1 true) 1 = true ∧
    ((∀ onErr, Run onErr exampleWorld (setRunning sampleState 1 true) 1 =
        onErr (setRunning sampleState 1 true) 1 alreadyRunningError) ∧
      (∀ fuel s2, RunFuel fuel exampleWorld (setRunning sampleState 1 true) 1 = .ok s2 →
        Running s2 1 = true)) :=
  ⟨by decide,
    Run_rejects_while_running exampleWorld (setRunning sampleState 1 true) 1
      (by decide) (by decide)⟩

/-- C6 at task 1 of `sampleState`, whose ping gets "FAIL" for "OK". -/
theorem Run_calls_back_iff_action_fails_witness :
    (Verify sampleState 1).2 = none ∧ Running sampleState 1 = false ∧
    actionSucceeds exampleWorld (setRunning sampleState 1 true) 1 = false ∧
    ∃ s1 err post, ∀ onErr,
      Run onErr exampleWorld sampleState 1 = (onErr s1 1 err).map post :=
  ⟨by decide, by decide, by decide,
    (Run_calls_back_iff_action_fails exampleWorld sampleState 1
      (by decide) (by decide) (by decide)).2.1 (by decide)⟩

/-- C9 at task 1 of `sampleState`. -/
theorem Run_holds_and_releases_flag_witness :
    Running sampleState 1 = false ∧
    ((∀ onErr s2, Run onErr exampleWorld sampleState 1 = .ok s2 → Running s2 1 = false) ∧
      (∀ onErr, Run (heldOnly 1 onErr) exampleWorld sampleState 1 =
        Run onErr exampleWorld sampleState 1) ∧
      (∀ onErr, Run onErr (exampleWorld.heldOnly 1) sampleState 1 =
        Run onErr exampleWorld sampleState 1) ∧
      (∀ fuel st err st2, Running st 1 = true →
        onRunError (RunFuel fuel exampleWorld) st 1 err = .ok st2 → Running st2 1 = true) ∧
      (∀ onErr, (Verify sampleState 1).2 = none →
        (sampleState.heap 1).runError = some .onRunError →
        (∀ st q err, ∃ st2, onErr st q err = .ok st2) →
        ∃ s2, Run onErr exampleWorld sampleState 1 = .ok s2)) :=
  ⟨by decide, Run_holds_and_releases_flag exampleWorld sampleState 1 (by decide)⟩

/-! ## Two concurrent runs of one task -/

/-- C4 (the code at the claim's failing input).  Two goroutines call `Run` on
the same idle task.  Each passes the check of `Running` before the other has
set the flag; then each sets the flag and starts the action.  Both actions are
in flight at once and neither call reported `alreadyRunningError`. -/
theorem two_runs_both_in_flight :
    ((Shared.init 2).run (fun _ => false) [0, 0, 0, 0, 1, 1, 1, 1, 0, 0, 0, 1, 1, 1]).inFlight
      = 2 ∧
    ((Shared.init 2).run (fun _ => false)
      [0, 0, 0, 0, 1, 1, 1, 1, 0, 0, 0, 1, 1, 1]).reportedRunning = [] := by
  decide

/-- In the same model, a second call that starts after the first has set the
flag reports `alreadyRunningError` and never starts the action. -/
theorem second_run_after_flag_is_rejected :
    ((Shared.init 2).run (fun _ => false) [0, 0, 0, 0, 0, 0, 0, 1, 1, 1, 1, 1]).inFlight = 1 ∧
    ((Shared.init 2).run (fun _ => false)
      [0, 0, 0, 0, 0, 0, 0, 1, 1, 1, 1, 1]).reportedRunning = [1] ∧
    ((Shared.init 2).run (fun _ => false) [0, 0, 0, 0, 0, 0, 0, 1, 1, 1, 1, 1]).pcs
      = [.action, .done] := by
  decide

/-! ## Further facts about the reload loop -/

/-- Whatever the `UTC` field of an accepted document says, the scheduler
installed by the reload has `UTC` true (main.go 201), is started, and the
document's flag is only stored in `schConfig`. -/
theorem reload_UTC_always_true (w : World) (s : State) (raw : RawConfig)
    (hv : Accepted w s raw) :
    ∃ s2, reload w s (.ok raw) = .ok s2 ∧ s2.sch.UTC = true ∧ s2.sch.running = true ∧
      s2.schConfig.UTC = raw.UTC :=
  ⟨_, reload_accepted w s raw hv, rfl, rfl, rfl⟩

/-- The fact above at `SampleConfig`. -/
theorem reload_UTC_always_true_witness :
    Accepted exampleWorld initState SampleConfig ∧
    ∃ s2, reload exampleWorld initState (.ok SampleConfig) = .ok s2 ∧ s2.sch.UTC = true ∧
      s2.sch.running = true ∧ s2.schConfig.UTC = SampleConfig.UTC :=
  ⟨by decide, reload_UTC_always_true exampleWorld initState SampleConfig (by decide)⟩

/-- After an accepted reload every task of the installed configuration has its
callback bound and is not running, so every armed job and every error job can
report a failure. -/
theorem reload_binds_callbacks (w : World) (s : State) (raw : RawConfig)
    (hv : Accepted w s raw) :
    ∃ s2, reload w s (.ok raw) = .ok s2 ∧
      ∀ sc ∈ s2.schConfig.Tasks,
        (s2.heap sc).runError = some .onRunError ∧ (s2.heap sc).running = false := by
  refine ⟨_, reload_accepted w s raw hv, ?_⟩
  intro sc hsc
  have hsc2 : sc ∈ (candidate s raw).schConfig.Tasks := hsc
  refine ⟨?_, ?_⟩
  · rw [runError_swapped]
    exact runError_bindAll _ _ _ hsc2
  · rw [running_swapped]
    obtain ⟨r, -, hr⟩ := candidate_heap_task s raw sc hsc2
    simp only [bindAll, if_pos hsc2, hr]
    rfl

/-- The fact above at `SampleConfig`. -/
theorem reload_binds_callbacks_witness :
    Accepted exampleWorld initState SampleConfig ∧
    ∃ s2, reload exampleWorld initState (.ok SampleConfig) = .ok s2 ∧
      ∀ sc ∈ s2.schConfig.Tasks,
        (s2.heap sc).runError = some .onRunError ∧ (s2.heap sc).running = false :=
  ⟨by decide, reload_binds_callbacks exampleWorld initState SampleConfig (by decide)⟩

/-! ## Runs of installed tasks return -/

theorem SameTasks.rfl (s : State) : SameTasks s s :=
  ⟨Eq.refl _, fun _ => ⟨Eq.refl _, Eq.refl _, Eq.refl _, Eq.refl _⟩⟩

theorem SameTasks.emit {s t : State} (h : SameTasks s t) (e : Event) :
    SameTasks s (t.emit e) := h

theorem SameTasks.setRunning {s t : State} (h : SameTasks s t) (cl : Ptr) (b : Bool) :
    SameTasks s (setRunning t cl b) := by
  refine ⟨h.1, fun q => ?_⟩
  rw [isErrorJob_setRunning, runError_setRunning, Do_setRunning, Args_setRunning]
  exact h.2 q

theorem SameTasks.verify {s t : State} (h : SameTasks s t) (q : Ptr) :
    (Verify t q).2 = none ↔ (Verify s q).2 = none := by
  rw [Verify_none_iff, Verify_none_iff, (h.2 q).2.2.1, (h.2 q).2.2.2]

theorem SameTasks.escalatable {s t : State} (h : SameTasks s t) (hs : Escalatable s) :
    Escalatable t := by
  intro q hq
  rw [h.1] at hq
  obtain ⟨h1, h2, h3⟩ := hs q hq
  exact ⟨(h.2 q).1.trans h1, (h.2 q).2.1.trans h2, (h.verify q).2 h3⟩

theorem Run_logOnly_sameTasks (w : World) (s s2 : State) (cl : Ptr)
    (h : Run logOnly w s cl = .ok s2) : SameTasks s s2 := by
  refine Run_inv (fun a => SameTasks s a) logOnly w cl (fun _ e ha => ha.emit e)
    (fun _ b ha => ha.setRunning cl b) ?_ s s2 (SameTasks.rfl s) h
  intro st err st2 hst hcall
  simp only [logOnly, Except.ok.injEq] at hcall
  subst hcall
  exact hst.emit _

theorem Run_logOnly_returns (w : World) (s : State) (cl : Ptr)
    (hv : (Verify s cl).2 = none) (hcb : (s.heap cl).runError = some .onRunError) :
    ∃ s2, Run logOnly w s cl = .ok s2 :=
  Run_returns logOnly w s cl hv hcb ⟨_, rfl⟩ (fun _ _ => ⟨_, rfl⟩)

theorem foldlM_logOnly_returns (w : World) (l : List Ptr) :
    ∀ s, (∀ q ∈ l, (s.heap q).runError = some .onRunError ∧ (Verify s q).2 = none) →
      ∃ s2, l.foldlM (Run logOnly w) s = .ok s2 := by
  induction l with
  | nil => intro s _; exact ⟨s, rfl⟩
  | cons q rest ih =>
    intro s hs
    obtain ⟨hcb, hv⟩ := hs q (List.mem_cons_self _ _)
    obtain ⟨s1, h1⟩ := Run_logOnly_returns w s q hv hcb
    have hsame := Run_logOnly_sameTasks w s s1 q h1
    obtain ⟨s2, h2⟩ := ih s1 (fun r hr => by
      obtain ⟨hcb2, hv2⟩ := hs r (List.mem_cons_of_mem _ hr)
      exact ⟨(hsame.2 r).2.1.trans hcb2, (hsame.verify r).2 hv2⟩)
    exact ⟨s2, by simp only [List.foldlM, h1, bind, Except.bind]; exact h2⟩

/-- The program's callback returns in every state whose error jobs are ready
to run. -/
theorem onRunError_returns (w : World) (fuel : Nat) (s : State) (cl : Ptr) (err : Error)
    (hs : Escalatable s) :
    ∃ s2, onRunError (RunFuel (fuel + 1) w) s cl err = .ok s2 := by
  cases hflag : (s.heap cl).isErrorJob with
  | true => exact ⟨_, onRunError_of_flag _ s cl err hflag⟩
  | false =>
    rw [onRunError_of_no_flag _ s cl err hflag,
      foldlM_errorJobs w fuel s.errorJobs
        (s.emit (.logWarning (.jobFailed (s.heap cl).String err)))
        (fun q hq => (hs q hq).1)]
    exact foldlM_logOnly_returns w _ _ (fun q hq =>
      ⟨(hs q hq).2.1, (Verify_none_iff _ q).2 ((Verify_none_iff s q).1 (hs q hq).2.2)⟩)

/-- A run of a verified task with a bound callback, under the program's
callback and with fuel for two levels of calls, returns whenever the error
jobs are ready to run: no panic, no exit, no exhausted fuel. -/
theorem RunFuel_returns (w : World) (fuel : Nat) (s : State) (cl : Ptr)
    (hs : Escalatable s) (hv : (Verify s cl).2 = none)
    (hcb : (s.heap cl).runError = some .onRunError) :
    ∃ s2, RunFuel (fuel + 2) w s cl = .ok s2 := by
  rw [RunFuel]
  refine Run_returns _ w s cl hv hcb (onRunError_returns w fuel s cl _ hs) ?_
  intro e err
  exact onRunError_returns w fuel _ cl err
    (((SameTasks.rfl s).setRunning cl true).emit e |>.escalatable hs)

theorem Do_swapped (c : State) (q : Ptr) : ((swapped c).heap q).Do = (c.heap q).Do :=
  congrArg TaskRecord.Do (record_swapped c q)

theorem Args_swapped (c : State) (q : Ptr) : ((swapped c).heap q).Args = (c.heap q).Args :=
  congrArg TaskRecord.Args (record_swapped c q)

theorem Do_bindAll (s : State) (tasks : List Ptr) (q : Ptr) :
    ((bindAll s tasks).heap q).Do = (s.heap q).Do :=
  congrArg TaskRecord.Do (record_bindAll s tasks q)

theorem Args_bindAll (s : State) (tasks : List Ptr) (q : Ptr) :
    ((bindAll s tasks).heap q).Args = (s.heap q).Args :=
  congrArg TaskRecord.Args (record_bindAll s tasks q)

/-- After an accepted reload every task of the configuration passes `Verify`
and has its callback bound, and the error jobs are ready to run. -/
theorem accepted_ready (w : World) (s : State) (raw : RawConfig) (hv : Accepted w s raw) :
    (∀ sc ∈ (candidate s raw).schConfig.Tasks,
      (Verify (swapped (bindAll (candidate s raw) (candidate s raw).schConfig.Tasks)) sc).2
          = none ∧
      ((swapped (bindAll (candidate s raw) (candidate s raw).schConfig.Tasks)).heap sc).runError
          = some .onRunError) ∧
    Escalatable (swapped (bindAll (candidate s raw) (candidate s raw).schConfig.Tasks)) := by
  have h1 : ∀ sc ∈ (candidate s raw).schConfig.Tasks,
      (Verify (swapped (bindAll (candidate s raw) (candidate s raw).schConfig.Tasks)) sc).2
          = none ∧
      ((swapped (bindAll (candidate s raw) (candidate s raw).schConfig.Tasks)).heap sc).runError
          = some .onRunError := by
    intro sc hsc
    refine ⟨?_, ?_⟩
    · rw [Verify_none_iff, Do_swapped, Args_swapped, Do_bindAll, Args_bindAll,
        ← Verify_none_iff]
      exact (hv sc hsc).1
    · rw [runError_swapped]
      exact runError_bindAll _ _ _ hsc
  refine ⟨h1, ?_⟩
  intro q hq
  rw [swapped_errorJobs] at hq
  obtain ⟨hq1, hq2⟩ := List.mem_filter.mp hq
  have hq3 : q ∈ (candidate s raw).schConfig.Tasks := hq1
  refine ⟨?_, (h1 q hq3).2, (h1 q hq3).1⟩
  rw [isErrorJob_after s raw q hq3, At_swapped]
  exact of_decide_eq_true hq2

/-- After a successful reload, a run of any task of the installed
configuration returns, for every fuel of two or more: it does not panic, exit
or exhaust the fuel, whatever the world answers. -/
theorem installed_tasks_run_to_completion (w : World) (s : State) (raw : RawConfig)
    (hv : Accepted w s raw) :
    ∃ s2, reload w s (.ok raw) = .ok s2 ∧
      ∀ cl ∈ s2.schConfig.Tasks, ∀ fuel, ∃ s3, RunFuel (fuel + 2) w s2 cl = .ok s3 := by
  obtain ⟨h1, h2⟩ := accepted_ready w s raw hv
  exact ⟨_, reload_accepted w s raw hv, fun cl hcl fuel =>
    RunFuel_returns w fuel _ cl h2 (h1 cl hcl).1 (h1 cl hcl).2⟩

/-- The fact above at `SampleConfig`. -/
theorem installed_tasks_run_to_completion_witness :
    Accepted exampleWorld initState SampleConfig ∧
    ∃ s2, reload exampleWorld initState (.ok SampleConfig) = .ok s2 ∧
      ∀ cl ∈ s2.schConfig.Tasks, ∀ fuel,
        ∃ s3, RunFuel (fuel + 2) exampleWorld s2 cl = .ok s3 :=
  ⟨by decide, installed_tasks_run_to_completion exampleWorld initState SampleConfig (by decide)⟩

/-! ## An invariant of the reachable states -/

theorem Ready_congr (s t : State) (hsch : t.sch = s.sch) (hjobs : t.errorJobs = s.errorJobs)
    (hnext : s.next ≤ t.next)
    (hheap : ∀ q, q < s.next → (t.heap q).isErrorJob = (s.heap q).isErrorJob ∧
      (t.heap q).runError = (s.heap q).runError ∧
      (t.heap q).Do = (s.heap q).Do ∧ (t.heap q).Args = (s.heap q).Args)
    (hs : Ready s) : Ready t := by
  refine ⟨fun e he => ?_, fun q hq => ?_⟩
  · rw [hsch] at he
    obtain ⟨h1, h2, h3⟩ := hs.1 e he
    obtain ⟨-, k2, k3, k4⟩ := hheap e.2 h1
    refine ⟨Nat.lt_of_lt_of_le h1 hnext, k2.trans h2, ?_⟩
    rw [Verify_none_iff, k3, k4, ← Verify_none_iff]
    exact h3
  · rw [hjobs] at hq
    obtain ⟨h1, h2, h3, h4⟩ := hs.2 q hq
    obtain ⟨k1, k2, k3, k4⟩ := hheap q h1
    refine ⟨Nat.lt_of_lt_of_le h1 hnext, k1.trans h2, k2.trans h3, ?_⟩
    rw [Verify_none_iff, k3, k4, ← Verify_none_iff]
    exact h4

theorem Ready_initState : Ready initState := by
  refine ⟨fun e he => ?_, fun q hq => ?_⟩
  · cases he
  · cases hq

theorem Ready_emit (s : State) (e : Event) (hs : Ready s) : Ready (s.emit e) :=
  Ready_congr s _ rfl rfl (Nat.le_refl _) (fun _ _ => ⟨rfl, rfl, rfl, rfl⟩) hs

theorem mem_tasks_lt_next (s : State) (raw : RawConfig) (q : Ptr)
    (hq : q ∈ (candidate s raw).schConfig.Tasks) : q < (candidate s raw).next := by
  rw [candidate_tasks, List.mem_range'_1] at hq
  exact hq.2

theorem Ready_accepted (w : World) (s : State) (raw : RawConfig) (hv : Accepted w s raw) :
    Ready (swapped (bindAll (candidate s raw) (candidate s raw).schConfig.Tasks)) := by
  obtain ⟨h1, h2⟩ := accepted_ready w s raw hv
  refine ⟨fun e he => ?_, fun q hq => ?_⟩
  · rw [swapped_entries] at he
    obtain ⟨sc, hsc, rfl⟩ := List.mem_map.mp he
    have hsc2 : sc ∈ (candidate s raw).schConfig.Tasks := (List.mem_filter.mp hsc).1
    exact ⟨mem_tasks_lt_next s raw sc hsc2, (h1 sc hsc2).2, (h1 sc hsc2).1⟩
  · have hq0 := hq
    rw [swapped_errorJobs] at hq
    have hq2 : q ∈ (candidate s raw).schConfig.Tasks := (List.mem_filter.mp hq).1
    exact ⟨mem_tasks_lt_next s raw q hq2, h2 q hq0⟩

/-- A turn of the reload loop keeps the invariant `Ready`. -/
theorem Ready_reload (w : World) (s s2 : State) (decoded : Except Error RawConfig)
    (hs : Ready s) (h : reload w s decoded = .ok s2) : Ready s2 := by
  cases decoded with
  | error err =>
    have h2 : s2 = s.emit (.logWarning (.loadFailed err)) := by
      have : reload w s (.error err) = .ok (s.emit (.logWarning (.loadFailed err))) := rfl
      rw [this] at h
      exact (Except.ok.inj h).symm
    subst h2
    exact Ready_emit s _ hs
  | ok raw =>
    by_cases hv : Accepted w s raw
    · rw [reload_accepted w s raw hv] at h
      cases h
      exact Ready_accepted w s raw hv
    · obtain ⟨s3, msg, h1, -, h3, h4, h5, h6⟩ := reload_rejected w s raw hv
      rw [h1] at h
      cases h
      exact Ready_congr s _ h3 h4 h6
        (fun q hq => by rw [h5 q hq]; exact ⟨rfl, rfl, rfl, rfl⟩) hs

/-- A run of a task keeps the invariant `Ready`. -/
theorem Ready_run (w : World) (fuel : Nat) (s s2 : State) (cl : Ptr)
    (hs : Ready s) (h : RunFuel fuel w s cl = .ok s2) : Ready s2 := by
  refine RunFuel_inv Ready w (fun st e ha => Ready_emit st e ha) ?_ fuel s cl s2 hs h
  intro st q b hst
  refine Ready_congr st _ rfl rfl (Nat.le_refl _) (fun r _ => ?_) hst
  rw [isErrorJob_setRunning, runError_setRunning, Do_setRunning, Args_setRunning]
  exact ⟨rfl, rfl, rfl, rfl⟩

/-- In every reachable state every armed job and every error job is an
allocated task object that passes `Verify` and has its callback bound, and
every error job is flagged: `Run` is only ever called on tasks for which the
hypotheses of the claims about `Run` hold. -/
theorem Reachable_ready (w : World) (s : State) (h : Reachable w s) : Ready s := by
  induction h with
  | start => exact Ready_initState
  | reload decoded _ hr ih => exact Ready_reload w _ _ decoded ih hr
  | run fuel cl _ hr ih => exact Ready_run w fuel _ _ cl ih hr

/-- The invariant at `sampleState`, reached by loading `SampleConfig`. -/
theorem Reachable_ready_witness :
    Reachable exampleWorld sampleState ∧ Ready sampleState :=
  have h : Reachable exampleWorld sampleState :=
    Reachable.reload (.ok SampleConfig) Reachable.start
      (reload_accepted exampleWorld initState SampleConfig (by decide))
  ⟨h, Reachable_ready exampleWorld sampleState h⟩

theorem swapped_trace_last (c : State) :
    (swapped c).trace.getLast? = some (.logInfo .configLoaded) := by
  simp [swapped, State.emit]

/-- A turn of the loop installs the document (its last outside call is the
message "Configuration loaded") exactly when the candidate is accepted by the
verify loop. -/
theorem reload_installs_iff_accepted (w : World) (s : State) (raw : RawConfig) :
    (∃ s2, reload w s (.ok raw) = .ok s2 ∧
      s2.trace.getLast? = some (.logInfo .configLoaded)) ↔ Accepted w s raw := by
  constructor
  · rintro ⟨s2, h, hlast⟩
    by_contra hv
    obtain ⟨s3, msg, h1, h2, -⟩ := reload_rejected w s raw hv
    rw [h1] at h
    cases h
    rw [h2] at hlast
    simp at hlast
  · intro hv
    exact ⟨_, reload_accepted w s raw hv, swapped_trace_last _⟩

/-- The install loop never clears `isErrorJob`: a task object that carries the
flag before the loop carries it after the loop, whatever its `At`. -/
theorem installTasks_keeps_flag (w : World) (tasks : List Ptr) (q : Ptr) :
    ∀ s s2, installTasks w s tasks = .ok s2 → (s.heap q).isErrorJob = true →
      (s2.heap q).isErrorJob = true := by
  induction tasks with
  | nil =>
    intro s s2 h hq
    simp only [installTasks, Except.ok.injEq] at h
    subst h
    exact hq
  | cons p rest ih =>
    intro s s2 h hq
    rw [installTasks] at h
    split_ifs at h with hat
    · refine ih _ _ h ?_
      by_cases hqp : q = p
      · subst hqp; simp [State.store]
      · simpa [State.store, hqp] using hq
    · split at h
      · exact ih _ _ h hq
      · cases h

/-- The fact above at `flaggedState`. -/
theorem installTasks_keeps_flag_witness :
    ∃ s2, installTasks exampleWorld flaggedState [0] = .ok s2 ∧
      (s2.heap 0).isErrorJob = true ∧ s2.sch.entries = [("0 5 * * * *", 0)] := by
  refine ⟨_, rfl, ?_, rfl⟩
  exact installTasks_keeps_flag exampleWorld [0] 0 flaggedState _ rfl rfl

/-- When the configuration source fails to decode the document, the turn of
the loop writes one warning and changes nothing else. -/
theorem reload_decode_error (w : World) (s : State) (err : Error) :
    reload w s (.error err) = .ok (s.emit (.logWarning (.loadFailed err))) :=
  rfl

/-! ## Escalation in every state after a reload -/

theorem Keeps_refl (s : State) : Keeps s s :=
  ⟨Eq.refl _, Nat.le_refl _, fun _ _ => ⟨Eq.refl _, Eq.refl _, Eq.refl _, Eq.refl _⟩⟩

theorem Keeps_emit {s2 st : State} (h : Keeps s2 st) (e : Event) : Keeps s2 (st.emit e) := h

theorem Keeps_setRunning {s2 st : State} (h : Keeps s2 st) (cl : Ptr) (b : Bool) :
    Keeps s2 (setRunning st cl b) := by
  refine ⟨h.1, h.2.1, fun q hq => ?_⟩
  rw [isErrorJob_setRunning, runError_setRunning, Do_setRunning, Args_setRunning]
  exact h.2.2 q hq

theorem Keeps_run {s2 st st2 : State} (w : World) (fuel : Nat) (cl : Ptr)
    (h : Keeps s2 st) (hr : RunFuel fuel w st cl = .ok st2) : Keeps s2 st2 :=
  RunFuel_inv (Keeps s2) w (fun _ e ha => Keeps_emit ha e)
    (fun _ q b ha => Keeps_setRunning ha q b)
    fuel st cl st2 h hr

theorem Keeps_noInstall {s2 st st2 : State} (w : World) (decoded : Except Error RawConfig)
    (h : Keeps s2 st) (hno : ∀ raw, decoded = .ok raw → ¬ Accepted w st raw)
    (hr : reload w st decoded = .ok st2) : Keeps s2 st2 := by
  cases decoded with
  | error err =>
    have h2 : reload w st (.error err) = .ok (st.emit (.logWarning (.loadFailed err))) := rfl
    rw [h2] at hr
    cases hr
    exact Keeps_emit h _
  | ok raw =>
    obtain ⟨s3, msg, h1, -, -, h4, h5, h6⟩ := reload_rejected w st raw (hno raw rfl)
    rw [h1] at hr
    cases hr
    refine ⟨h4.trans h.1, Nat.le_trans h.2.1 h6, fun q hq => ?_⟩
    rw [h5 q (Nat.lt_of_lt_of_le hq h.2.1)]
    exact h.2.2 q hq

/-- Every later state still has the installation. -/
theorem Later_keeps {w : World} {s2 st : State} (h : Later w s2 st) : Keeps s2 st := by
  induction h with
  | now => exact Keeps_refl s2
  | run fuel cl _ hr ih => exact Keeps_run w fuel cl ih hr
  | flag cl b _ ih => exact Keeps_setRunning ih cl b
  | call e _ ih => exact Keeps_emit ih e
  | noInstall decoded _ hno hr ih => exact Keeps_noInstall w decoded ih hno hr

theorem String_setRunning (s : State) (cl : Ptr) (b : Bool) :
    ((setRunning s cl b).heap cl).String = (s.heap cl).String := by
  simp [setRunning, ConfigLine.String]

/-- A run of a verified, idle, unflagged task whose action fails, under the
program's callback, in a state whose error jobs are all flagged: the action,
one warning, each error job run once in order with a callback that only logs,
then the deferred work.  The same for every fuel of two or more. -/
theorem RunFuel_failure_escalates (w : World) (st : State) (cl : Ptr)
    (hjobs : ∀ q ∈ st.errorJobs, (st.heap q).isErrorJob = true)
    (hv : (Verify st cl).2 = none) (hcb : (st.heap cl).runError = some .onRunError)
    (hflag : (st.heap cl).isErrorJob = false) (hrun : Running st cl = false)
    (hact : actionSucceeds w (setRunning st cl true) cl = false) :
    ∃ e err post, ∀ fuel,
      RunFuel (fuel + 2) w st cl =
        (st.errorJobs.foldlM (Run logOnly w)
          (((setRunning st cl true).emit e).emit
            (.logWarning (.jobFailed (st.heap cl).String err)))).map post := by
  have hv1 : (Verify (setRunning st cl true) cl).2 = none :=
    (Verify_setRunning st cl cl true).2 hv
  have hcb1 : ((setRunning st cl true).heap cl).runError = some .onRunError := by
    rw [runError_setRunning]; exact hcb
  obtain ⟨e, err, post, hs⟩ := (runSwitch_verified w (setRunning st cl true) cl hv1 hcb1).2 hact
  refine ⟨e, err, fun a => setRunning (post a) cl false, fun fuel => ?_⟩
  have hflag1 : (((setRunning st cl true).emit e).heap cl).isErrorJob = false := by
    rw [heap_emit, isErrorJob_setRunning]; exact hflag
  have hjobs1 : ∀ q ∈ st.errorJobs,
      (((((setRunning st cl true).emit e).emit
        (.logWarning (.jobFailed (st.heap cl).String err))).heap q)).isErrorJob = true := by
    intro q hq
    rw [heap_emit, heap_emit, isErrorJob_setRunning]
    exact hjobs q hq
  rw [RunFuel, Run_of_not_running _ w st cl hrun, hs, map_map,
    onRunError_of_no_flag _ _ cl err hflag1, heap_emit, String_setRunning]
  have hE : ((setRunning st cl true).emit e).errorJobs = st.errorJobs := rfl
  rw [hE, foldlM_errorJobs w fuel st.errorJobs _ hjobs1]

/-- A run of an unflagged task that is already running, under the program's
callback: one warning with `alreadyRunningError`, then each error job run once
in order with a callback that only logs. -/
theorem RunFuel_running_escalates (w : World) (st : State) (cl : Ptr)
    (hjobs : ∀ q ∈ st.errorJobs, (st.heap q).isErrorJob = true)
    (hcb : (st.heap cl).runError = some .onRunError)
    (hflag : (st.heap cl).isErrorJob = false) (hrun : Running st cl = true) (fuel : Nat) :
    RunFuel (fuel + 2) w st cl =
      st.errorJobs.foldlM (Run logOnly w)
        (st.emit (.logWarning (.jobFailed (st.heap cl).String alreadyRunningError))) := by
  rw [RunFuel, Run_of_running _ w st cl hrun, callRunError_bound _ st cl _ hcb,
    onRunError_of_no_flag _ st cl _ hflag]
  exact foldlM_errorJobs w fuel st.errorJobs _ (fun q hq => hjobs q hq)

/-- What a later state keeps of an accepted reload: the error-task list is the
error tasks of the installed configuration, all flagged; the tasks of the
configuration pass `Verify`, have their callback bound, and are flagged iff
their `At` is the error sentinel. -/
theorem later_accepted (w : World) (s : State) (raw : RawConfig) (hv : Accepted w s raw)
    (st : State)
    (hst : Later w (swapped (bindAll (candidate s raw) (candidate s raw).schConfig.Tasks)) st) :
    st.errorJobs =
      (swapped (bindAll (candidate s raw) (candidate s raw).schConfig.Tasks)).schConfig.Tasks.filter
        (fun sc => ((swapped (bindAll (candidate s raw)
          (candidate s raw).schConfig.Tasks)).heap sc).At = "@error") ∧
    (∀ q ∈ st.errorJobs, (st.heap q).isErrorJob = true) ∧
    (∀ cl ∈ (candidate s raw).schConfig.Tasks,
      (Verify st cl).2 = none ∧ (st.heap cl).runError = some .onRunError ∧
      ((st.heap cl).isErrorJob = true ↔
        ((swapped (bindAll (candidate s raw)
          (candidate s raw).schConfig.Tasks)).heap cl).At = "@error")) := by
  have hk := Later_keeps hst
  obtain ⟨h1, h2⟩ := accepted_ready w s raw hv
  have hjobs : (swapped (bindAll (candidate s raw) (candidate s raw).schConfig.Tasks)).errorJobs =
      (swapped (bindAll (candidate s raw) (candidate s raw).schConfig.Tasks)).schConfig.Tasks.filter
        (fun sc => ((swapped (bindAll (candidate s raw)
          (candidate s raw).schConfig.Tasks)).heap sc).At = "@error") := by
    simp only [swapped_errorJobs, At_swapped]
    rfl
  have hlt : ∀ cl ∈ (candidate s raw).schConfig.Tasks,
      cl < (swapped (bindAll (candidate s raw) (candidate s raw).schConfig.Tasks)).next :=
    fun cl hcl => mem_tasks_lt_next s raw cl hcl
  have htask : ∀ cl ∈ (candidate s raw).schConfig.Tasks,
      (Verify st cl).2 = none ∧ (st.heap cl).runError = some .onRunError ∧
      ((st.heap cl).isErrorJob = true ↔
        ((swapped (bindAll (candidate s raw)
          (candidate s raw).schConfig.Tasks)).heap cl).At = "@error") := by
    intro cl hcl
    obtain ⟨k1, k2, k3, k4⟩ := hk.2.2 cl (hlt cl hcl)
    refine ⟨?_, k2.trans (h1 cl hcl).2, ?_⟩
    · rw [Verify_none_iff, k3, k4, ← Verify_none_iff]
      exact (h1 cl hcl).1
    · rw [k1]
      exact isErrorJob_after s raw cl hcl
  refine ⟨hk.1.trans hjobs, ?_, htask⟩
  intro q hq
  rw [hk.1, hjobs] at hq
  obtain ⟨hq1, hq2⟩ := List.mem_filter.mp hq
  exact (htask q hq1).2.2.2 (of_decide_eq_true hq2)

/-- C5.  After a successful reload, in every later state `st` (after completed
runs, in the middle of runs, after reload turns that installed nothing), with
`E` the tasks of the installed configuration whose `At` is "@error", in the
order of `Tasks`: `E` has no repetition; the callback called for a task of the
configuration whose `At` is not "@error" logs and then runs each task of `E`
once, in order, each of these runs being a run whose own callback only logs
(no second round); the callback called for a task of `E` logs and runs
nothing; and a whole `Run` of an idle task whose `At` is not "@error" and
whose action fails is the action, the warning, the runs of `E` and the
deferred work, while a `Run` of such a task that is already running is the
warning for `alreadyRunningError` and the runs of `E`. -/
theorem failure_runs_error_tasks_once (w : World) (s : State) (raw : RawConfig)
    (hv : Accepted w s raw) :
    ∃ s2, reload w s (.ok raw) = .ok s2 ∧
      (s2.schConfig.Tasks.filter (fun sc => (s2.heap sc).At = "@error")).Nodup ∧
      (∀ st, Later w s2 st →
        ∀ cl ∈ s2.schConfig.Tasks, (s2.heap cl).At ≠ "@error" → ∀ err fuel,
        onRunError (RunFuel (fuel + 1) w) st cl err =
          (s2.schConfig.Tasks.filter (fun sc => (s2.heap sc).At = "@error")).foldlM
            (Run logOnly w)
            (st.emit (.logWarning (.jobFailed (st.heap cl).String err)))) ∧
      (∀ st, Later w s2 st →
        ∀ cl ∈ s2.schConfig.Tasks, (s2.heap cl).At = "@error" → ∀ run err,
        onRunError run st cl err =
          .ok (st.emit (.logWarning (.jobFailed (st.heap cl).String err)))) ∧
      (∀ st, Later w s2 st →
        ∀ cl ∈ s2.schConfig.Tasks, (s2.heap cl).At ≠ "@error" →
        Running st cl = false → actionSucceeds w (setRunning st cl true) cl = false →
        ∃ e err post, ∀ fuel,
          RunFuel (fuel + 2) w st cl =
            ((s2.schConfig.Tasks.filter (fun sc => (s2.heap sc).At = "@error")).foldlM
              (Run logOnly w)
              (((setRunning st cl true).emit e).emit
                (.logWarning (.jobFailed (st.heap cl).String err)))).map post) ∧
      (∀ st, Later w s2 st →
        ∀ cl ∈ s2.schConfig.Tasks, (s2.heap cl).At ≠ "@error" →
        Running st cl = true → ∀ fuel,
          RunFuel (fuel + 2) w st cl =
            (s2.schConfig.Tasks.filter (fun sc => (s2.heap sc).At = "@error")).foldlM
              (Run logOnly w)
              (st.emit (.logWarning (.jobFailed (st.heap cl).String alreadyRunningError)))) := by
  have hflag : ∀ st, Later w (swapped (bindAll (candidate s raw)
      (candidate s raw).schConfig.Tasks)) st →
      ∀ cl ∈ (candidate s raw).schConfig.Tasks,
      ((swapped (bindAll (candidate s raw) (candidate s raw).schConfig.Tasks)).heap cl).At
        ≠ "@error" → (st.heap cl).isErrorJob = false := by
    intro st hst cl hcl hat
    rw [← Bool.not_eq_true]
    exact fun h => hat (((later_accepted w s raw hv st hst).2.2 cl hcl).2.2.1 h)
  refine ⟨_, reload_accepted w s raw hv, (tasks_nodup s raw).filter _, ?_, ?_, ?_, ?_⟩
  · intro st hst cl hcl hat err fuel
    obtain ⟨hE, hjobs, -⟩ := later_accepted w s raw hv st hst
    rw [onRunError_of_no_flag _ st cl err (hflag st hst cl hcl hat), ← hE]
    exact foldlM_errorJobs w fuel st.errorJobs _ (fun q hq => hjobs q hq)
  · intro st hst cl hcl hat run err
    exact onRunError_of_flag run st cl err
      (((later_accepted w s raw hv st hst).2.2 cl hcl).2.2.2 hat)
  · intro st hst cl hcl hat hrun hact
    obtain ⟨hE, hjobs, htask⟩ := later_accepted w s raw hv st hst
    rw [← hE]
    exact RunFuel_failure_escalates w st cl hjobs (htask cl hcl).1 (htask cl hcl).2.1
      (hflag st hst cl hcl hat) hrun hact
  · intro st hst cl hcl hat hrun fuel
    obtain ⟨hE, hjobs, htask⟩ := later_accepted w s raw hv st hst
    rw [← hE]
    exact RunFuel_running_escalates w st cl hjobs (htask cl hcl).2.1
      (hflag st hst cl hcl hat) hrun fuel

/-- C5 at `SampleConfig`, loaded into the initial state. -/
theorem failure_runs_error_tasks_once_witness :
    Accepted exampleWorld initState SampleConfig ∧
    ∃ s2, reload exampleWorld initState (.ok SampleConfig) = .ok s2 ∧
      (s2.schConfig.Tasks.filter (fun sc => (s2.heap sc).At = "@error")).Nodup ∧
      (∀ st, Later exampleWorld s2 st →
        ∀ cl ∈ s2.schConfig.Tasks, (s2.heap cl).At ≠ "@error" → ∀ err fuel,
        onRunError (RunFuel (fuel + 1) exampleWorld) st cl err =
          (s2.schConfig.Tasks.filter (fun sc => (s2.heap sc).At = "@error")).foldlM
            (Run logOnly exampleWorld)
            (st.emit (.logWarning (.jobFailed (st.heap cl).String err)))) ∧
      (∀ st, Later exampleWorld s2 st →
        ∀ cl ∈ s2.schConfig.Tasks, (s2.heap cl).At = "@error" → ∀ run err,
        onRunError run st cl err =
          .ok (st.emit (.logWarning (.jobFailed (st.heap cl).String err)))) ∧
      (∀ st, Later exampleWorld s2 st →
        ∀ cl ∈ s2.schConfig.Tasks, (s2.heap cl).At ≠ "@error" →
        Running st cl = false →
        actionSucceeds exampleWorld (setRunning st cl true) cl = false →
        ∃ e err post, ∀ fuel,
          RunFuel (fuel + 2) exampleWorld st cl =
            ((s2.schConfig.Tasks.filter (fun sc => (s2.heap sc).At = "@error")).foldlM
              (Run logOnly exampleWorld)
              (((setRunning st cl true).emit e).emit
                (.logWarning (.jobFailed (st.heap cl).String err)))).map post) ∧
      (∀ st, Later exampleWorld s2 st →
        ∀ cl ∈ s2.schConfig.Tasks, (s2.heap cl).At ≠ "@error" →
        Running st cl = true → ∀ fuel,
          RunFuel (fuel + 2) exampleWorld st cl =
            (s2.schConfig.Tasks.filter (fun sc => (s2.heap sc).At = "@error")).foldlM
              (Run logOnly exampleWorld)
              (st.emit
                (.logWarning (.jobFailed (st.heap cl).String alreadyRunningError)))) :=
  ⟨by decide, failure_runs_error_tasks_once exampleWorld initState SampleConfig (by decide)⟩

/-- C8, as amended.  After a successful reload, from any earlier state: the
variable `errorJobs` holds the error tasks of the configuration just
installed, and keeps holding them in every later state (after completed runs,
in the middle of runs, after reload turns that installed nothing); the task
objects of earlier generations are as they were; whenever, in a later state,
the callback is called for a task that is not flagged as an error job (of
whatever generation), it logs and runs exactly the error tasks of the
configuration just installed, in order; and a whole `Run` of such a task
(verified, callback bound, idle) whose action fails is the action, the
warning, the runs of these error tasks and the deferred work. -/
theorem callback_runs_current_errorJobs (w : World) (s : State) (raw : RawConfig)
    (hv : Accepted w s raw) :
    ∃ s2, reload w s (.ok raw) = .ok s2 ∧
      s2.errorJobs = s2.schConfig.Tasks.filter (fun sc => (s2.heap sc).At = "@error") ∧
      (∀ q, q < s.next → s2.heap q = s.heap q) ∧
      (∀ st, Later w s2 st →
        st.errorJobs = s2.schConfig.Tasks.filter (fun sc => (s2.heap sc).At = "@error") ∧
        ∀ run cl err, (st.heap cl).isErrorJob = false →
          onRunError run st cl err =
            (s2.schConfig.Tasks.filter (fun sc => (s2.heap sc).At = "@error")).foldlM run
              (st.emit (.logWarning (.jobFailed (st.heap cl).String err)))) ∧
      (∀ st, Later w s2 st →
        ∀ cl, (Verify st cl).2 = none → (st.heap cl).runError = some .onRunError →
        (st.heap cl).isErrorJob = false → Running st cl = false →
        actionSucceeds w (setRunning st cl true) cl = false →
        ∃ e err post, ∀ fuel,
          RunFuel (fuel + 2) w st cl =
            ((s2.schConfig.Tasks.filter (fun sc => (s2.heap sc).At = "@error")).foldlM
              (Run logOnly w)
              (((setRunning st cl true).emit e).emit
                (.logWarning (.jobFailed (st.heap cl).String err)))).map post) := by
  refine ⟨_, reload_accepted w s raw hv,
    (later_accepted w s raw hv _ Later.now).1, ?_, ?_, ?_⟩
  · intro q hq
    have hnot := not_mem_tasks_of_old s raw q hq
    rw [swapped_heap, if_neg (fun h => hnot h.1)]
    simp only [bindAll, if_neg hnot]
    exact candidate_heap_old s raw q hq
  · intro st hst
    obtain ⟨hE, -, -⟩ := later_accepted w s raw hv st hst
    refine ⟨hE, fun run cl err hflag => ?_⟩
    rw [onRunError_of_no_flag _ st cl err hflag, hE]
  · intro st hst cl hcv hcb hflag hrun hact
    obtain ⟨hE, hjobs, -⟩ := later_accepted w s raw hv st hst
    rw [← hE]
    exact RunFuel_failure_escalates w st cl hjobs hcv hcb hflag hrun hact

/-- C8 as amended, at `generationTwo` loaded on top of `generationOne`. -/
theorem callback_runs_current_errorJobs_witness :
    Accepted exampleWorld stateOne generationTwo ∧
    ∃ s2, reload exampleWorld stateOne (.ok generationTwo) = .ok s2 ∧
      s2.errorJobs = s2.schConfig.Tasks.filter (fun sc => (s2.heap sc).At = "@error") ∧
      (∀ q, q < stateOne.next → s2.heap q = stateOne.heap q) ∧
      (∀ st, Later exampleWorld s2 st →
        st.errorJobs = s2.schConfig.Tasks.filter (fun sc => (s2.heap sc).At = "@error") ∧
        ∀ run cl err, (st.heap cl).isErrorJob = false →
          onRunError run st cl err =
            (s2.schConfig.Tasks.filter (fun sc => (s2.heap sc).At = "@error")).foldlM run
              (st.emit (.logWarning (.jobFailed (st.heap cl).String err)))) ∧
      (∀ st, Later exampleWorld s2 st →
        ∀ cl, (Verify st cl).2 = none → (st.heap cl).runError = some .onRunError →
        (st.heap cl).isErrorJob = false → Running st cl = false →
        actionSucceeds exampleWorld (setRunning st cl true) cl = false →
        ∃ e err post, ∀ fuel,
          RunFuel (fuel + 2) exampleWorld st cl =
            ((s2.schConfig.Tasks.filter (fun sc => (s2.heap sc).At = "@error")).foldlM
              (Run logOnly exampleWorld)
              (((setRunning st cl true).emit e).emit
                (.logWarning (.jobFailed (st.heap cl).String err)))).map post) :=
  ⟨by decide, callback_runs_current_errorJobs exampleWorld stateOne generationTwo (by decide)⟩

/-- A whole run at a concrete input: task 1 of `sampleState` pings
`http://hitthisurl.com/here`, gets "FAIL" for "OK", and the run is the GET,
the warning, the run of error task 0 (its GET and the close of its body), and
the close of task 1's body; every running flag is false at the end. -/
theorem sample_failure_escalates :
    ∃ s3, RunFuel 2 exampleWorld sampleState 1 = .ok s3 ∧
      s3.trace = sampleState.trace ++
        [.httpGet "http://hitthisurl.com/here",
         .logWarning (.jobFailed "ping @ 0 5 * * * * <[http://hitthisurl.com/here OK]>"
           (.errorf "Expected \"OK\", got: \"FAIL\".")),
         .httpGet "http://hitthisurl.com/error",
         .bodyClose,
         .bodyClose] ∧
      Running s3 0 = false ∧ Running s3 1 = false :=
  ⟨_, rfl, by decide, by decide, by decide⟩

end Schedule
